import Mathlib

/-!
# Verification of the aalam ECS core

Shallow embedding of the entity-component-system core:
`EntityHandle` (bit-packing codec), `EntityStore` (generational slot
allocator), `SparseSet` (paged sparse→dense index), `ComponentStore`
(sparse set + parallel payload array) and `Registry` (composition).

Modelling conventions:
* JavaScript numbers used as entity IDs are modelled by their unsigned
  bit pattern as `Nat`.  For handle layouts of at most 32 bits the code
  uses 32-bit `Number` bit operations (`<<`, `|`, `>>>`, `&`); signed
  reinterpretation by `<<`/`|` is a bijection on bit patterns, and the
  decoders use the unsigned `>>>`/`&`, so working with the pattern is
  faithful.  For layouts over 32 bits the code uses `BigInt` and the
  arithmetic is exact.
* JavaScript arrays that can contain holes (`undefined`) are modelled
  as `List (Option _)`; `jsGet` yields `none` for a hole or an
  out-of-range read, `jsSetAny` pads with holes exactly like an
  out-of-range assignment does.
* `Uint32Array`-backed dense storage (the `typedArray = true` flavour,
  the default) is modelled as `List Nat` of fixed length; out-of-range
  writes on a typed array are silently dropped, which matches
  `List.set` semantics, and out-of-range reads give `undefined`, which
  every bit-level decoder in the code coerces to 0 (`ToInt32`), hence
  `getD _ 0`.
-/

set_option maxRecDepth 100000

deriving instance DecidableEq for Except

namespace Aalam

/-! ## JavaScript array-with-holes model -/

/-- A JavaScript array whose cells may be holes (`undefined`). -/
abbrev JsArr (α : Type) := List (Option α)

/-- Read `a[i]`: `none` models `undefined` (hole or out of range). -/
def jsGet {α : Type} (a : JsArr α) (i : Nat) : Option α :=
  a.getD i none

/-- Write `a[i] = v` where `v` may itself be `undefined`/`null`
(both modelled as `none`); an assignment past the end pads with holes,
as in JavaScript. -/
def jsSetAny {α : Type} (a : JsArr α) (i : Nat) (v : Option α) : JsArr α :=
  if i < a.length then a.set i v
  else a ++ List.replicate (i - a.length) none ++ [v]

/-- Write a proper value `a[i] = v`. -/
def jsSet {α : Type} (a : JsArr α) (i : Nat) (v : α) : JsArr α :=
  jsSetAny a i (some v)

theorem jsGet_jsSetAny {α : Type} (a : JsArr α) (i j : Nat) (v : Option α) :
    jsGet (jsSetAny a i v) j = if j = i then v else jsGet a j := by
  unfold jsGet jsSetAny
  by_cases hij : j = i
  · subst hij
    split
    · simp [List.getD, List.getElem?_set_self, *]
    · rename_i h
      have hle : a.length ≤ j := Nat.le_of_not_lt h
      simp only [List.getD, List.get?_eq_getElem?, List.append_assoc, if_pos]
      rw [List.getElem?_append_right hle, List.getElem?_append_right (by simp)]
      simp
  · simp only [hij, if_false]
    split
    · rename_i h
      simp only [List.getD, List.get?_eq_getElem?]
      rw [List.getElem?_set_ne (Ne.symm hij)]
    · rename_i h
      have hle : a.length ≤ i := Nat.le_of_not_lt h
      simp only [List.getD, List.get?_eq_getElem?, List.append_assoc]
      rcases Nat.lt_or_ge j a.length with hj | hj
      · rw [List.getElem?_append_left hj]
      · rw [List.getElem?_append_right hj, List.getElem?_eq_none hj]
        rcases Nat.lt_or_ge j i with hji | hji
        · have hrep : j - a.length < i - a.length := by omega
          rw [List.getElem?_append_left (by simpa using hrep),
            List.getElem?_replicate, if_pos hrep]
          rfl
        · rw [List.getElem?_eq_none (by simp; omega)]

theorem jsGet_jsSet {α : Type} (a : JsArr α) (i j : Nat) (v : α) :
    jsGet (jsSet a i v) j = if j = i then some v else jsGet a j :=
  jsGet_jsSetAny a i j (some v)

theorem jsGet_jsSetAny_self {α : Type} (a : JsArr α) (i : Nat) (v : Option α) :
    jsGet (jsSetAny a i v) i = v := by
  rw [jsGet_jsSetAny, if_pos rfl]

theorem jsGet_jsSetAny_ne {α : Type} (a : JsArr α) (i j : Nat) (v : Option α)
    (hij : j ≠ i) : jsGet (jsSetAny a i v) j = jsGet a j := by
  rw [jsGet_jsSetAny, if_neg hij]

/-! ### List update helpers -/

theorem getD_set_self {α : Type} (l : List α) (i : Nat) (v d : α)
    (h : i < l.length) : (l.set i v).getD i d = v := by
  simp [List.getD, List.get?_eq_getElem?, List.getElem?_set_self, h]

theorem getD_set_ne {α : Type} (l : List α) (i j : Nat) (v d : α)
    (h : j ≠ i) : (l.set i v).getD j d = l.getD j d := by
  simp [List.getD, List.get?_eq_getElem?, List.getElem?_set_ne (Ne.symm h)]

theorem getD_set_oob {α : Type} (l : List α) (i : Nat) (v d : α)
    (h : l.length ≤ i) : (l.set i v).getD i d = l.getD i d := by
  rw [List.set_eq_of_length_le h]

theorem getD_set {α : Type} (l : List α) (i j : Nat) (v d : α) :
    (l.set i v).getD j d = if j = i ∧ i < l.length then v else l.getD j d := by
  by_cases h1 : j = i
  · subst h1
    by_cases h2 : j < l.length
    · rw [if_pos ⟨rfl, h2⟩]
      exact getD_set_self l j v d h2
    · rw [if_neg (by tauto), List.set_eq_of_length_le (le_of_not_lt h2)]
  · rw [if_neg (by tauto)]
    exact getD_set_ne l i j v d h1

theorem getD_append_replicate_zero (l : List Nat) (n i : Nat) :
    (l ++ List.replicate n 0).getD i 0 = l.getD i 0 := by
  rcases Nat.lt_or_ge i l.length with h | h
  · simp only [List.getD, List.get?_eq_getElem?]
    rw [List.getElem?_append_left h]
  · simp only [List.getD, List.get?_eq_getElem?]
    rw [List.getElem?_append_right h, List.getElem?_eq_none h]
    rcases Nat.lt_or_ge (i - l.length) n with h2 | h2
    · rw [List.getElem?_replicate, if_pos h2]
      rfl
    · rw [List.getElem?_eq_none (by simpa using h2)]

/-! ## EntityHandle: the `(index, version)` bit-packing codec

Source: `EntityHandleFactory(indexBits, versionBits)`.  `make` masks
each field to its width and packs the index in the high bits; `index`
and `version` are pure bit extractions.  Construction refuses
non-positive widths and totals over 64; runtime encode/decode has no
failure path. -/

/-- A handle layout: how many bits carry the slot index and how many
carry the generation counter. -/
structure HandleBits where
  indexBits : Nat
  versionBits : Nat
deriving DecidableEq, Repr

/-- `make(index, version)`: mask each field to its width, put the index
in the high bits.  The index argument is an `Int` because the entity
store pushes its free-list head (possibly the sentinel `-1`) through
`make`; JavaScript's `-1 & mask` (and `BigInt(-1) & mask`) equals the
mask itself, which is exactly `Int.emod` by `2^indexBits`. -/
def hmake (hb : HandleBits) (i v : Int) : Nat :=
  (i % ((2 : Int) ^ hb.indexBits)).toNat * 2 ^ hb.versionBits +
    (v % ((2 : Int) ^ hb.versionBits)).toNat

/-- `index(e)`: shift the version bits away, mask to the index width
(`(n >>> versionBits) & indexMask`). -/
def hindex (hb : HandleBits) (n : Nat) : Nat :=
  n / 2 ^ hb.versionBits % 2 ^ hb.indexBits

/-- `version(e)`: mask to the version width (`n & versionMask`). -/
def hversion (hb : HandleBits) (n : Nat) : Nat :=
  n % 2 ^ hb.versionBits

/-- The reserved index `INVALID_INDEX = 2^indexBits - 1`. -/
def invalidIndex (hb : HandleBits) : Nat := 2 ^ hb.indexBits - 1

/-- The pre-built `EntityHandleSmall = EntityHandleFactory(12, 4)`. -/
def handleSmall : HandleBits := ⟨12, 4⟩

/-- The pre-built `EntityHandleMedium = EntityHandleFactory(20, 12)`. -/
def handleMedium : HandleBits := ⟨20, 12⟩

/-- Unpacking helper: the quotient recovers the high field. -/
theorem pack_div (A B vb : Nat) (hB : B < 2 ^ vb) :
    (A * 2 ^ vb + B) / 2 ^ vb = A := by
  rw [Nat.mul_comm, Nat.mul_add_div (Nat.two_pow_pos vb), Nat.div_eq_of_lt hB,
    Nat.add_zero]

/-- Unpacking helper: the remainder recovers the low field. -/
theorem pack_mod (A B vb : Nat) (hB : B < 2 ^ vb) :
    (A * 2 ^ vb + B) % 2 ^ vb = B := by
  rw [Nat.mul_comm, Nat.mul_add_mod, Nat.mod_eq_of_lt hB]

theorem emod_two_pow_toNat_lt (i : Int) (b : Nat) :
    (i % ((2 : Int) ^ b)).toNat < 2 ^ b := by
  have h2 : (0 : Int) < (2 : Int) ^ b := by positivity
  have h1 := Int.emod_nonneg i (ne_of_gt h2)
  have h3 := Int.emod_lt_of_pos i h2
  have : ((2 : Int) ^ b) = ((2 ^ b : Nat) : Int) := by push_cast; ring
  omega

/-- Decoding `make i v` recovers the masked index field, for any
(possibly negative or out-of-range) integer arguments. -/
theorem hindex_hmake_int (hb : HandleBits) (i v : Int) :
    hindex hb (hmake hb i v) = (i % ((2 : Int) ^ hb.indexBits)).toNat := by
  unfold hindex hmake
  rw [pack_div _ _ _ (emod_two_pow_toNat_lt v _),
    Nat.mod_eq_of_lt (emod_two_pow_toNat_lt i _)]

/-- Decoding `make i v` recovers the masked version field. -/
theorem hversion_hmake_int (hb : HandleBits) (i v : Int) :
    hversion hb (hmake hb i v) = (v % ((2 : Int) ^ hb.versionBits)).toNat := by
  unfold hversion hmake
  rw [pack_mod _ _ _ (emod_two_pow_toNat_lt v _)]

theorem natCast_emod_two_pow_toNat (n b : Nat) :
    ((n : Int) % ((2 : Int) ^ b)).toNat = n % 2 ^ b := by
  have : ((2 : Int) ^ b) = ((2 ^ b : Nat) : Int) := by push_cast; ring
  rw [this, ← Int.natCast_mod, Int.toNat_natCast]

theorem hindex_hmake (hb : HandleBits) (i v : Nat) :
    hindex hb (hmake hb i v) = i % 2 ^ hb.indexBits := by
  rw [hindex_hmake_int, natCast_emod_two_pow_toNat]

theorem hversion_hmake (hb : HandleBits) (i v : Nat) :
    hversion hb (hmake hb i v) = v % 2 ^ hb.versionBits := by
  rw [hversion_hmake_int, natCast_emod_two_pow_toNat]

/-- Encoding an in-range pair decodes exactly. -/
theorem hindex_hmake_of_lt (hb : HandleBits) (i v : Nat)
    (hi : i < 2 ^ hb.indexBits) : hindex hb (hmake hb i v) = i := by
  rw [hindex_hmake, Nat.mod_eq_of_lt hi]

theorem hversion_hmake_of_lt (hb : HandleBits) (i v : Nat)
    (hv : v < 2 ^ hb.versionBits) : hversion hb (hmake hb i v) = v := by
  rw [hversion_hmake, Nat.mod_eq_of_lt hv]

/-- Pushing the free-list sentinel `-1` through `make` yields the
reserved `INVALID_INDEX` in the index field, as the code relies on. -/
theorem hindex_hmake_neg_one (hb : HandleBits) (v : Int) :
    hindex hb (hmake hb (-1) v) = invalidIndex hb := by
  rw [hindex_hmake_int, invalidIndex]
  have h2 : (0 : Int) < (2 : Int) ^ hb.indexBits := by positivity
  have h1 : (-1 : Int) % ((2 : Int) ^ hb.indexBits) = (2 : Int) ^ hb.indexBits - 1 := by
    rw [show (-1 : Int) = ((2 : Int) ^ hb.indexBits - 1) + (2 ^ hb.indexBits) * (-1) by ring,
      Int.add_mul_emod_self_left, Int.emod_eq_of_lt (by omega) (by omega)]
  rw [h1]
  have : ((2 : Int) ^ hb.indexBits) = ((2 ^ hb.indexBits : Nat) : Int) := by push_cast; ring
  omega

/-- C9: for every handle codec built from positive bit widths with
`indexBits + versionBits ≤ 64` and every in-range `(i, v)`,
`index (make i v) = i` and `version (make i v) = v`; encode/decode are
total functions, and out-of-range inputs to `make` are silently masked
to their field widths (`make i v = make (i mod 2^indexBits) (v mod
2^versionBits)`, for arbitrary, even negative, integer inputs). -/
theorem c9_handle_roundtrip (hb : HandleBits) (i v : Nat)
    (hib : 0 < hb.indexBits) (hvb : 0 < hb.versionBits)
    (htot : hb.indexBits + hb.versionBits ≤ 64)
    (hi : i < 2 ^ hb.indexBits) (hv : v < 2 ^ hb.versionBits) :
    hindex hb (hmake hb i v) = i ∧ hversion hb (hmake hb i v) = v ∧
      ∀ i' v' : Int, hmake hb i' v' =
        hmake hb (i' % ((2 : Int) ^ hb.indexBits)) (v' % ((2 : Int) ^ hb.versionBits)) := by
  refine ⟨hindex_hmake_of_lt hb i v hi, hversion_hmake_of_lt hb i v hv, fun i' v' => ?_⟩
  unfold hmake
  rw [Int.emod_emod_of_dvd _ dvd_rfl, Int.emod_emod_of_dvd _ dvd_rfl]

/-- Witness for C9 at the pre-built Medium (20/12) codec. -/
theorem c9_handle_roundtrip_witness :
    (0 < handleMedium.indexBits ∧ 0 < handleMedium.versionBits ∧
      handleMedium.indexBits + handleMedium.versionBits ≤ 64 ∧
      (7 : Nat) < 2 ^ handleMedium.indexBits ∧ (5 : Nat) < 2 ^ handleMedium.versionBits) ∧
    (hindex handleMedium (hmake handleMedium 7 5) = 7 ∧
      hversion handleMedium (hmake handleMedium 7 5) = 5 ∧
      ∀ i' v' : Int, hmake handleMedium i' v' =
        hmake handleMedium (i' % ((2 : Int) ^ handleMedium.indexBits))
          (v' % ((2 : Int) ^ handleMedium.versionBits))) :=
  ⟨⟨by decide, by decide, by decide, by decide, by decide⟩,
    c9_handle_roundtrip handleMedium 7 5 (by decide) (by decide) (by decide)
      (by decide) (by decide)⟩

/-! ## SparseSet

Source: `SparseSet.js`.  Two-level paged sparse table (`sparse`, a
JavaScript array of lazily created pages, each a JavaScript array of
dense indices or `TOMBSTONE`), plus a packed dense array of entity IDs
(`Uint32Array(poolSize)` in the default typed flavour) and a `length`.
-/

/-- Sentinel marking an explicitly emptied sparse cell. -/
def TOMBSTONE : Int := -1

/-- The sparse-set state (`typedArray = true` flavour). -/
structure SparseSet where
  pageSize : Nat
  hb : HandleBits
  sparse : JsArr (JsArr Int)
  dense : List Nat
  length : Nat
deriving DecidableEq, Repr

/-- Typed-array write `dense[i] = v`: out-of-range and negative indices
are silently dropped, as on a `Uint32Array`. -/
def denseSet (d : List Nat) (i : Int) (v : Nat) : List Nat :=
  if 0 ≤ i then d.set i.toNat v else d

namespace SparseSet

/-- The constructor with `typedArray = true`: zero-filled dense pool,
no pages. -/
def mk0 (hb : HandleBits) (pageSize poolSize : Nat) : SparseSet :=
  ⟨pageSize, hb, [], List.replicate poolSize 0, 0⟩

/-- `pageIndex(e) = floor(index(e) / pageSize)`. -/
def pageIndexOf (s : SparseSet) (e : Nat) : Nat := hindex s.hb e / s.pageSize

/-- `pageOffset(e) = index(e) & (pageSize - 1)`; the constructor forces
`pageSize` to be a power of two, for which the bitmask is `%`. -/
def pageOffsetOf (s : SparseSet) (e : Nat) : Nat := hindex s.hb e % s.pageSize

/-- The raw cell at page `pi`, offset `po` (`none`: page absent or
cell unset). -/
def cellAt (s : SparseSet) (pi po : Nat) : Option Int :=
  match jsGet s.sparse pi with
  | none => none
  | some page => jsGet page po

/-- The value in `e`'s sparse cell, if its page exists and the cell is
set. -/
def cellVal (s : SparseSet) (e : Nat) : Option Int :=
  s.cellAt (s.pageIndexOf e) (s.pageOffsetOf e)

/-- Whether `e`'s page exists at all (`this.#sparse[pageIndex]`
truthy). -/
def pageExists (s : SparseSet) (e : Nat) : Bool :=
  (jsGet s.sparse (s.pageIndexOf e)).isSome

def capacity (s : SparseSet) : Nat := s.dense.length

def len (s : SparseSet) : Nat := s.length

/-- `reset()`: only forgets the length; pages and cells survive. -/
def reset (s : SparseSet) : SparseSet := { s with length := 0 }

/-- `clear()`: drops the length and all pages. -/
def clear (s : SparseSet) : SparseSet := { s with length := 0, sparse := [] }

/-- `resize(capacity)`: grow the dense array (typed flavour:
reallocate and zero-fill the tail); fails unless strictly growing. -/
def resize (s : SparseSet) (c : Nat) : SparseSet × Int :=
  if c ≤ s.capacity then (s, -1)
  else ({ s with dense := s.dense ++ List.replicate (c - s.capacity) 0 }, 0)

/-- `contains(e)`: page exists, cell set, not `TOMBSTONE`, and
strictly below the live length. -/
def contains (s : SparseSet) (e : Nat) : Bool :=
  match s.cellVal e with
  | some v => decide (v ≠ TOMBSTONE ∧ v < (s.length : Int))
  | none => false

/-- `index(e)`: the dense index under the same test, `-1` otherwise. -/
def index (s : SparseSet) (e : Nat) : Int :=
  match s.cellVal e with
  | some v => if v ≠ TOMBSTONE ∧ v < (s.length : Int) then v else -1
  | none => -1

/-- Write dense index `v` into `e`'s sparse cell, creating the page if
absent (`getOrCreatePage` followed by the cell assignment). -/
def writeCell (s : SparseSet) (e : Nat) (v : Int) : SparseSet :=
  let page := (jsGet s.sparse (s.pageIndexOf e)).getD []
  { s with sparse := jsSet s.sparse (s.pageIndexOf e) (jsSet page (s.pageOffsetOf e) v) }

/-- Write `v` into `e`'s sparse cell through the existing page
(`this.#sparse[pi][po] = v`); `none` models the TypeError JavaScript
raises when the page is absent. -/
def writeCellExisting (s : SparseSet) (e : Nat) (v : Int) : Option SparseSet :=
  match jsGet s.sparse (s.pageIndexOf e) with
  | none => none
  | some page =>
    some { s with sparse := jsSet s.sparse (s.pageIndexOf e) (jsSet page (s.pageOffsetOf e) v) }

/-- `add(e, resize)`: idempotent on membership; fails at capacity
unless auto-resize is allowed (growth doubles the live length). -/
def add (s : SparseSet) (e : Nat) (resizeFlag : Bool) : SparseSet × Int :=
  if s.contains e then (s, s.index e)
  else
    let denseIndex := s.length
    let grown : Option SparseSet :=
      if s.capacity ≤ denseIndex then
        if !resizeFlag then none
        else
          let r := s.resize (denseIndex * 2)
          if r.2 = -1 then none else some r.1
      else some s
    match grown with
    | none => (s, -1)
    | some s1 =>
      let s2 := s1.writeCell e (denseIndex : Int)
      ({ s2 with dense := denseSet s2.dense (denseIndex : Int) e, length := s2.length + 1 },
        (denseIndex : Int))

/-- `remove(e)`: swap-with-last.  Mirrors the source exactly — in
particular the cell test checks only `undefined` and `TOMBSTONE`, NOT
`denseIdx < length`, unlike `contains`/`index`/`swap`.  The outer
`none` models the TypeError raised when the moved last entity's page
is absent (impossible in states whose dense prefix was built by
`add`). -/
def remove (s : SparseSet) (e : Nat) : Option (SparseSet × Int) :=
  if s.length = 0 then some (s, -1)
  else if ¬s.pageExists e then some (s, -1)
  else
    match s.cellVal e with
    | none => some (s, -1)
    | some denseIdx =>
      if denseIdx = TOMBSTONE then some (s, -1)
      else
        let lastDenseIdx := s.length - 1
        let lastDenseEntity := s.dense.getD lastDenseIdx 0
        let step : Option SparseSet :=
          if denseIdx ≠ (lastDenseIdx : Int) then
            let s1 := { s with dense := denseSet s.dense denseIdx lastDenseEntity }
            s1.writeCellExisting lastDenseEntity denseIdx
          else some s
        match step with
        | none => none
        | some s2 =>
          match s2.writeCellExisting e TOMBSTONE with
          | none => none
          | some s3 => some ({ s3 with length := s3.length - 1 }, 0)

/-- `swap(ent1, ent2)`: exchange dense positions and sparse cells.
Unlike `remove`, this guards both cells with the full bounds check.
The final two cell writes go through pages that were just matched, so
`writeCell` (which cannot fail) is semantically identical there. -/
def swap (s : SparseSet) (ent1 ent2 : Nat) : SparseSet × Int :=
  if s.length = 0 ∨ ent1 = ent2 then (s, -1)
  else if ¬s.pageExists ent1 then (s, -1)
  else if ¬s.pageExists ent2 then (s, -1)
  else
    match s.cellVal ent1 with
    | none => (s, -1)
    | some d1 =>
      if d1 = TOMBSTONE then (s, -1)
      else
        match s.cellVal ent2 with
        | none => (s, -1)
        | some d2 =>
          if d2 = TOMBSTONE then (s, -1)
          else if d1 < 0 ∨ (s.length : Int) ≤ d1 ∨ d2 < 0 ∨ (s.length : Int) ≤ d2 then
            (s, -1)
          else
            let t := s.dense.getD d1.toNat 0
            let dense1 := denseSet s.dense d1 (s.dense.getD d2.toNat 0)
            let dense2 := denseSet dense1 d2 t
            let s1 := { s with dense := dense2 }
            let s2 := s1.writeCell ent1 d2
            let s3 := s2.writeCell ent2 d1
            (s3, 0)

/-- Stable insertion into a sorted list; `le a b` models
`cmp(a, b) <= 0`. -/
def jsSortInsert (le : Nat → Nat → Bool) (x : Nat) : List Nat → List Nat
  | [] => [x]
  | y :: ys => if le x y then x :: y :: ys else y :: jsSortInsert le x ys

/-- Model of `Array.prototype.sort(cmp)` / `TypedArray.prototype.sort(cmp)`
for a consistent comparator: a stable sort of the WHOLE array — the
ECMAScript sort never restricts itself to a prefix. -/
def jsSort (le : Nat → Nat → Bool) : List Nat → List Nat
  | [] => []
  | x :: xs => jsSortInsert le x (jsSort le xs)

/-- The rebuild loop of `sort`: walk the listed dense positions and
write each position back into that entity's sparse cell
(`this.#sparse[pageIndex][pageOffset] = i`, TypeError if the page is
absent). -/
def sortLoop (s : SparseSet) : List Nat → Option SparseSet
  | [] => some s
  | i :: is =>
    match s.writeCellExisting (s.dense.getD i 0) (i : Int) with
    | none => none
    | some s' => sortLoop s' is

/-- `sort(cmp)`: sorts the ENTIRE dense backing array, then rebuilds
the sparse cells of positions `[0, length)`. -/
def sort (s : SparseSet) (le : Nat → Nat → Bool) : Option (SparseSet × Int) :=
  let s1 := { s with dense := jsSort le s.dense }
  match sortLoop s1 (List.range s1.length) with
  | none => none
  | some s2 => some (s2, 0)

end SparseSet

/-! ### Concrete sparse-set states for the `remove`/`sort` analyses

Medium (20/12) codec, `pageSize = 128`, `poolSize = 4`.  All three
entities live on page 0 at offsets 1, 2, 3. -/

/-- Entity with slot index 1, version 0 (pattern 4096). -/
def entA : Nat := hmake handleMedium 1 0

/-- Entity with slot index 2, version 0 (pattern 8192). -/
def entB : Nat := hmake handleMedium 2 0

/-- Entity with slot index 3, version 0 (pattern 12288). -/
def entC : Nat := hmake handleMedium 3 0

/-- `add(entA); add(entB)` on a fresh set: dense prefix `[entA, entB]`,
cells 0 and 1, capacity 4. -/
def sparseAB : SparseSet :=
  (((SparseSet.mk0 handleMedium 128 4).add entA false).1.add entB false).1

/-- `reset()` then `add(entC)`: `entC` is the only contained entity
(dense index 0), while `entB`'s sparse cell still holds the stale
dense index 1 ≥ length = 1, so `contains(entB)` is false. -/
def staleStore : SparseSet := ((sparseAB.reset).add entC false).1

/-- C1: the claim states that `remove(e)` on any non-contained entity
— including one whose sparse cell holds a stale dense index ≥ length —
returns `-1` and leaves the set unchanged.  The code however only
tests the cell for `undefined` and `TOMBSTONE` (`SparseSet.js` line
265), omitting the `< length` bound that `contains`, `index` and
`swap` all apply: on `staleStore`, where `contains(entB)` is false,
`remove(entB)` returns 0 (success), decrements `length` from 1 to 0,
and knocks the genuinely contained entity `entC` out of the set.  This
contradicts the specified membership semantics, so the claim is a true
statement about the intended behaviour and the code has a bug. -/
theorem c1_remove_stale_corrupts :
    staleStore.contains entB = false ∧
    staleStore.contains entC = true ∧
    staleStore.length = 1 ∧
    (staleStore.remove entB).map
        (fun p => (p.2, p.1.length, p.1.contains entC)) =
      some (0, 0, false) := by decide

/-- Ascending comparator, modelling `(a, b) => a - b`:
`le a b ↔ cmp(a,b) ≤ 0`. -/
def ascLe (a b : Nat) : Bool := decide (a ≤ b)

/-- C2: the claim states `sort(cmp)` sorts only the live prefix
`dense[0..length)` and preserves the multiset of contained entities.
The code calls `this.#dense.sort(comparatorFunc)` (`SparseSet.js` line
341), which sorts the ENTIRE backing array: on `sparseAB` (capacity 4,
length 2, zero-filled tail) an ascending sort moves the two zero-fill
cells in front of the live entities, so the live prefix becomes
`[0, 0]`, the never-added entity pattern 0 reads as contained, and the
sparse cells of `entA`/`entB` go stale while still passing `contains`.
The spec's "sorts dense[0..length)" and invariant 7 (multiset
preservation) are the documented intent, so this is a code bug. -/
theorem c2_sort_whole_array :
    sparseAB.length = 2 ∧
    sparseAB.dense = [entA, entB, 0, 0] ∧
    sparseAB.contains 0 = false ∧
    (sparseAB.sort ascLe).map
        (fun p => (p.2, p.1.dense, p.1.length, p.1.contains 0)) =
      some (0, [0, 0, entA, entB], 2, true) := by decide

/-! ### SparseSet well-formedness and operation specifications -/

theorem jsGet_eq_none_of_le {α : Type} (a : JsArr α) (i : Nat) (h : a.length ≤ i) :
    jsGet a i = none := by
  unfold jsGet
  simp [List.getD, List.get?_eq_getElem?, List.getElem?_eq_none h]

theorem lt_of_jsGet_eq_some {α : Type} (a : JsArr α) (i : Nat) (x : α)
    (h : jsGet a i = some x) : i < a.length := by
  by_contra hc
  rw [jsGet_eq_none_of_le a i (Nat.le_of_not_lt hc)] at h
  cases h

namespace SparseSet

/-- The two sparse-cell obligations at one address: cells hold at
least `TOMBSTONE`, and any live dense index stored in a cell is the
cell of the entity sitting at that dense position. -/
def cellOK (s : SparseSet) (pi po : Nat) : Prop :=
  (∀ v : Int, s.cellAt pi po = some v → TOMBSTONE ≤ v) ∧
  (∀ v : Int, s.cellAt pi po = some v → 0 ≤ v → v < (s.length : Int) →
    s.pageIndexOf (s.dense.getD v.toNat 0) = pi ∧
    s.pageOffsetOf (s.dense.getD v.toNat 0) = po)

instance instDecCellOK (s : SparseSet) (pi po : Nat) : Decidable (s.cellOK pi po) :=
  match h : s.cellAt pi po with
  | none =>
    isTrue ⟨fun v hv => (by rw [h] at hv; cases hv), fun v hv => (by rw [h] at hv; cases hv)⟩
  | some v =>
    decidable_of_iff (TOMBSTONE ≤ v ∧ (0 ≤ v → v < (s.length : Int) →
        s.pageIndexOf (s.dense.getD v.toNat 0) = pi ∧
        s.pageOffsetOf (s.dense.getD v.toNat 0) = po))
      (by
        constructor
        · rintro ⟨h1, h2⟩
          refine ⟨fun w hw => ?_, fun w hw hw0 hwl => ?_⟩
          · rw [h] at hw
            cases hw
            exact h1
          · rw [h] at hw
            cases hw
            exact h2 hw0 hwl
        · rintro ⟨h1, h2⟩
          exact ⟨h1 v h, h2 v h⟩)

/-- Well-formedness of a sparse set: positive page size, length within
capacity, every live dense entry's cell stores its position, and every
cell is mutually consistent with the dense array (the sparse-set
invariants of the design). -/
def WF (s : SparseSet) : Prop :=
  0 < s.pageSize ∧ s.length ≤ s.capacity ∧
  (∀ i, i < s.length → s.cellVal (s.dense.getD i 0) = some (i : Int)) ∧
  (∀ pi, pi < s.sparse.length → ∀ po, po < ((jsGet s.sparse pi).getD []).length →
    s.cellOK pi po)

instance instDecWF (s : SparseSet) : Decidable (s.WF) := by
  unfold WF
  infer_instance

/-- Reading any cell of a well-formed set satisfies `cellOK`, without
bound side conditions. -/
theorem WF.cell_spec {s : SparseSet} (hwf : s.WF) (pi po : Nat) (v : Int)
    (h : s.cellAt pi po = some v) :
    TOMBSTONE ≤ v ∧ (0 ≤ v → v < (s.length : Int) →
      s.pageIndexOf (s.dense.getD v.toNat 0) = pi ∧
      s.pageOffsetOf (s.dense.getD v.toNat 0) = po) := by
  have hpage : ∃ page, jsGet s.sparse pi = some page := by
    unfold cellAt at h
    cases hp : jsGet s.sparse pi with
    | none => rw [hp] at h; cases h
    | some page => exact ⟨page, rfl⟩
  obtain ⟨page, hpage⟩ := hpage
  have hpi : pi < s.sparse.length := lt_of_jsGet_eq_some _ _ _ hpage
  have hpo : po < ((jsGet s.sparse pi).getD []).length := by
    rw [hpage]
    apply lt_of_jsGet_eq_some _ _ v
    unfold cellAt at h
    rw [hpage] at h
    exact h
  obtain ⟨h1, h2⟩ := hwf.2.2.2 pi hpi po hpo
  exact ⟨h1 v h, h2 v h⟩

theorem contains_iff (s : SparseSet) (e : Nat) :
    s.contains e = true ↔
      ∃ v : Int, s.cellVal e = some v ∧ v ≠ TOMBSTONE ∧ v < (s.length : Int) := by
  unfold contains
  cases hc : s.cellVal e <;> simp

theorem index_eq (s : SparseSet) (e : Nat) (v : Int) (h : s.cellVal e = some v)
    (h1 : v ≠ TOMBSTONE) (h2 : v < (s.length : Int)) : s.index e = v := by
  unfold index
  rw [h]
  exact if_pos ⟨h1, h2⟩

/-- Effect of a cell write on an arbitrary cell. -/
theorem cellAt_writeCell (s : SparseSet) (e : Nat) (v : Int) (pi po : Nat) :
    (s.writeCell e v).cellAt pi po =
      if pi = s.pageIndexOf e ∧ po = s.pageOffsetOf e then some v
      else s.cellAt pi po := by
  unfold writeCell cellAt
  dsimp only
  rw [jsGet_jsSet]
  by_cases h1 : pi = s.pageIndexOf e
  · rw [if_pos h1]
    show jsGet (jsSet ((jsGet s.sparse (s.pageIndexOf e)).getD [])
      (s.pageOffsetOf e) v) po = _
    rw [jsGet_jsSet]
    by_cases h2 : po = s.pageOffsetOf e
    · rw [if_pos h2, if_pos ⟨h1, h2⟩]
    · rw [if_neg h2, if_neg (by tauto)]
      subst h1
      cases hp : jsGet s.sparse (s.pageIndexOf e) with
      | none => rfl
      | some page => rfl
  · rw [if_neg h1, if_neg (by tauto)]

theorem writeCell_fields (s : SparseSet) (e : Nat) (v : Int) :
    (s.writeCell e v).dense = s.dense ∧ (s.writeCell e v).length = s.length ∧
    (s.writeCell e v).pageSize = s.pageSize ∧ (s.writeCell e v).hb = s.hb :=
  ⟨rfl, rfl, rfl, rfl⟩

/-- `writeCellExisting` equals `writeCell` whenever the page exists. -/
theorem writeCellExisting_eq (s : SparseSet) (e : Nat) (v : Int) (page : JsArr Int)
    (hp : jsGet s.sparse (s.pageIndexOf e) = some page) :
    s.writeCellExisting e v = some (s.writeCell e v) := by
  unfold writeCellExisting writeCell
  rw [hp]
  simp [jsGet, hp]

/-- Page existence survives any cell write. -/
theorem pageExists_writeCell (s : SparseSet) (e x : Nat) (v : Int) (page : JsArr Int)
    (hp : jsGet s.sparse (s.pageIndexOf x) = some page) :
    ∃ page', jsGet (s.writeCell e v).sparse ((s.writeCell e v).pageIndexOf x) = some page' := by
  show ∃ page', jsGet (jsSet s.sparse (s.pageIndexOf e)
    (jsSet ((jsGet s.sparse (s.pageIndexOf e)).getD []) (s.pageOffsetOf e) v))
    (s.pageIndexOf x) = some page'
  rw [jsGet_jsSet]
  by_cases h1 : s.pageIndexOf x = s.pageIndexOf e
  · rw [if_pos h1]
    exact ⟨_, rfl⟩
  · rw [if_neg h1]
    exact ⟨page, hp⟩

theorem cellVal_some_page (s : SparseSet) (e : Nat) (v : Int)
    (h : s.cellVal e = some v) :
    ∃ page, jsGet s.sparse (s.pageIndexOf e) = some page := by
  unfold cellVal cellAt at h
  cases hp : jsGet s.sparse (s.pageIndexOf e) with
  | none => rw [hp] at h; cases h
  | some page => exact ⟨page, rfl⟩

theorem contains_of_cellVal (s : SparseSet) (e : Nat) :
    s.contains e =
      match s.cellVal e with
      | some v => decide (v ≠ TOMBSTONE ∧ v < (s.length : Int))
      | none => false := rfl

/-- The swap-with-last `remove` of a CONTAINED entity on a well-formed
set: returns success, shrinks the length by one, moves the last dense
entry into the vacated slot (redirecting its cell there), tombstones
the removed entity's cell, and leaves every other dense entry in
place. -/
theorem remove_spec (s : SparseSet) (hwf : s.WF) (e : Nat) (hc : s.contains e = true) :
    ∃ s', s.remove e = some (s', 0) ∧
      s'.length = s.length - 1 ∧
      s'.dense.length = s.dense.length ∧
      s'.pageSize = s.pageSize ∧ s'.hb = s.hb ∧
      (∀ j : Nat, j ≠ (s.index e).toNat → s'.dense.getD j 0 = s.dense.getD j 0) ∧
      ((s.index e).toNat ≠ s.length - 1 →
        s'.dense.getD (s.index e).toNat 0 = s.dense.getD (s.length - 1) 0) ∧
      s'.contains e = false ∧
      ((s.index e).toNat ≠ s.length - 1 →
        s'.index (s.dense.getD (s.length - 1) 0) = s.index e) := by
  obtain ⟨v, hcv, hvt, hvl⟩ := (contains_iff s e).mp hc
  have hcell := hwf.cell_spec (s.pageIndexOf e) (s.pageOffsetOf e) v hcv
  have hv0 : 0 ≤ v := by
    have := hcell.1
    unfold TOMBSTONE at this hvt
    omega
  have hveq : ((v.toNat : Nat) : Int) = v := Int.toNat_of_nonneg hv0
  have hvidx : v.toNat < s.length := by omega
  have hlen0 : ¬s.length = 0 := by omega
  have hidxe : s.index e = v := index_eq s e v hcv hvt hvl
  obtain ⟨page, hpage⟩ := cellVal_some_page s e v hcv
  have hpe : s.pageExists e = true := by
    unfold pageExists
    rw [hpage]
    rfl
  have hback := hcell.2 hv0 hvl
  -- the cell of the last dense entry (well-formedness at length - 1)
  have hlast := hwf.2.2.1 (s.length - 1) (by omega)
  obtain ⟨lpage, hlpage⟩ := cellVal_some_page s _ _ hlast
  by_cases hmove : v = ((s.length - 1 : Nat) : Int)
  · -- removing the last entry: no dense move
    refine ⟨{ s.writeCell e TOMBSTONE with length := (s.writeCell e TOMBSTONE).length - 1 },
      ?_, ?_, rfl, rfl, rfl, ?_, ?_, ?_, ?_⟩
    · unfold remove
      rw [if_neg hlen0, if_neg (by simp [hpe]), hcv]
      dsimp only
      rw [if_neg hvt, if_neg (by simpa using hmove)]
      dsimp only
      rw [writeCellExisting_eq s e TOMBSTONE page hpage]
    · rfl
    · intro j _
      rfl
    · intro hne
      exfalso
      apply hne
      omega
    · rw [contains_of_cellVal]
      show (match ((s.writeCell e TOMBSTONE).cellAt
        (s.pageIndexOf e) (s.pageOffsetOf e)) with
        | some w => decide (w ≠ TOMBSTONE ∧ w < (((s.writeCell e TOMBSTONE).length - 1 : Nat) : Int))
        | none => false) = false
      rw [cellAt_writeCell, if_pos ⟨rfl, rfl⟩]
      simp
    · intro hne
      exfalso
      apply hne
      omega
  · -- genuine swap-with-last
    have hne' : v.toNat ≠ s.length - 1 := by omega
    -- distinct cells for e and the last entry
    have haddr_ne : ¬(s.pageIndexOf (s.dense.getD (s.length - 1) 0) = s.pageIndexOf e ∧
        s.pageOffsetOf (s.dense.getD (s.length - 1) 0) = s.pageOffsetOf e) := by
      rintro ⟨hp1, hp2⟩
      have : s.cellVal (s.dense.getD (s.length - 1) 0) = some v := by
        unfold cellVal
        rw [hp1, hp2]
        exact hcv
      rw [hlast] at this
      cases this
      omega
    set s1 : SparseSet := { s with dense := denseSet s.dense v (s.dense.getD (s.length - 1) 0) }
      with hs1
    have hs1dense : s1.dense = s.dense.set v.toNat (s.dense.getD (s.length - 1) 0) := by
      rw [hs1]
      unfold denseSet
      rw [if_pos hv0]
    have hpage1 : jsGet s1.sparse (s1.pageIndexOf (s.dense.getD (s.length - 1) 0)) =
        some lpage := hlpage
    set s2 : SparseSet := s1.writeCell (s.dense.getD (s.length - 1) 0) v with hs2
    obtain ⟨page2, hpage2⟩ := pageExists_writeCell s1 (s.dense.getD (s.length - 1) 0) e v page hpage
    set s3 : SparseSet := s2.writeCell e TOMBSTONE with hs3
    refine ⟨{ s3 with length := s3.length - 1 }, ?_, ?_, ?_, rfl, rfl, ?_, ?_, ?_, ?_⟩
    · unfold remove
      rw [if_neg hlen0, if_neg (by simp [hpe]), hcv]
      dsimp only
      rw [if_neg hvt, if_pos (by simpa using hmove),
        writeCellExisting_eq s1 _ v lpage hpage1]
      dsimp only
      rw [writeCellExisting_eq s2 e TOMBSTONE page2 hpage2]
    · rfl
    · show s1.dense.length = s.dense.length
      rw [hs1dense, List.length_set]
    · intro j hj
      show s1.dense.getD j 0 = s.dense.getD j 0
      rw [hs1dense]
      apply getD_set_ne
      rw [hidxe] at hj
      exact hj
    · intro _
      show s1.dense.getD (s.index e).toNat 0 = s.dense.getD (s.length - 1) 0
      rw [hs1dense, hidxe]
      apply getD_set_self
      have hcap := hwf.2.1
      unfold capacity at hcap
      omega
    · rw [contains_of_cellVal]
      show (match (s3.cellAt (s.pageIndexOf e) (s.pageOffsetOf e)) with
        | some w => decide (w ≠ TOMBSTONE ∧ w < ((s3.length - 1 : Nat) : Int))
        | none => false) = false
      rw [hs3, cellAt_writeCell, if_pos ⟨rfl, rfl⟩]
      simp
    · intro _
      have hcv3 : s3.cellVal (s.dense.getD (s.length - 1) 0) = some v := by
        show s3.cellAt (s.pageIndexOf (s.dense.getD (s.length - 1) 0))
          (s.pageOffsetOf (s.dense.getD (s.length - 1) 0)) = some v
        rw [hs3, cellAt_writeCell, if_neg (by exact haddr_ne), hs2, cellAt_writeCell,
          if_pos ⟨rfl, rfl⟩]
      have : ({ s3 with length := s3.length - 1 } : SparseSet).index
          (s.dense.getD (s.length - 1) 0) = v := by
        apply index_eq
        · exact hcv3
        · exact hvt
        · show v < ((s3.length - 1 : Nat) : Int)
          have hs3len : s3.length = s.length := rfl
          omega
      rw [this, hidxe]

end SparseSet

/-! ## ComponentStore

Source: `ComponentStore.js`.  A SparseSet paired with a payload array
`components` (`new Array(poolSize)`, i.e. holes); the empty (tag) kind
stores `[]` and rejects all payload APIs.  Payload construction
(`new this.#compConstructor(...args)`) is opaque to the claims, so the
constructed payload is passed as a value; `getConst`/`tryGetConst`
return a deep copy, which for the pure payloads modelled here is the
value itself. -/

/-- `ComponentStandard = 0b01`. -/
def ComponentStandard : Nat := 1

/-- `ComponentEmpty = 0b10`. -/
def ComponentEmpty : Nat := 2

/-- A component store with payload type `α`. -/
structure ComponentStore (α : Type) where
  set : SparseSet
  components : JsArr α
  isEmptyComp : Bool
deriving DecidableEq

namespace ComponentStore

/-- Constructor: the standard kind allocates `new Array(poolSize)`
(all holes), the empty kind `[]`. -/
def mk0 (α : Type) (isEmpty : Bool) (hb : HandleBits) (pageSize poolSize : Nat) :
    ComponentStore α :=
  { set := SparseSet.mk0 hb pageSize poolSize,
    components := if isEmpty then [] else List.replicate poolSize none,
    isEmptyComp := isEmpty }

def contains {α : Type} (cs : ComponentStore α) (e : Nat) : Bool := cs.set.contains e

def len {α : Type} (cs : ComponentStore α) : Nat := cs.set.len

/-- `add(e, args, replace, resize)`; `none` models the TypeError a
rollback `set.remove` could raise on an absent page (impossible here
since `set.add` just created the page). -/
def add {α : Type} (cs : ComponentStore α) (e : Nat) (newComp : α)
    (replaceFlag resizeFlag : Bool) : Option (ComponentStore α × Int) :=
  let existed := cs.set.contains e
  let r := cs.set.add e resizeFlag
  if r.2 = -1 then some (cs, -1)
  else
    let cs1 : ComponentStore α := { cs with set := r.1 }
    if cs1.isEmptyComp then some (cs1, 0)
    else
      let idx := r.2.toNat
      if cs1.components.length ≤ idx ∧ resizeFlag = false then
        match cs1.set.remove e with
        | none => none
        | some rr => some ({ cs1 with set := rr.1 }, -1)
      else
        let cs2 : ComponentStore α :=
          if cs1.components.length ≤ idx then
            { cs1 with components := cs1.components ++
                List.replicate (max (cs1.components.length * 2) (idx + 1) -
                  cs1.components.length) none }
          else cs1
        if existed = true ∧ replaceFlag = false then some (cs2, 0)
        else some ({ cs2 with components := jsSet cs2.components idx newComp }, 0)

/-- `remove(e)`: mirror the sparse set's swap-with-last in the payload
array (guarded by `index`, which unlike `SparseSet.remove` does apply
the `< length` bound), then remove from the set. -/
def remove {α : Type} (cs : ComponentStore α) (e : Nat) : Option (ComponentStore α × Int) :=
  let idx := cs.set.index e
  if idx = -1 then some (cs, -1)
  else
    let cs1 : ComponentStore α :=
      if cs.isEmptyComp then cs
      else
        let lastIdx := cs.set.len - 1
        let comps1 := if ¬(lastIdx = idx.toNat) then
            jsSetAny cs.components idx.toNat (jsGet cs.components lastIdx)
          else cs.components
        { cs with components := jsSetAny comps1 lastIdx none }
    match cs1.set.remove e with
    | none => none
    | some rr => some ({ cs1 with set := rr.1 }, rr.2)

/-- `get(e)`: empty kind rejected; absence is an error. -/
def get {α : Type} (cs : ComponentStore α) (e : Nat) : Except String (Option α) :=
  if cs.isEmptyComp then Except.error "This Does not upport empty Comps"
  else
    let idx := cs.set.index e
    if idx = -1 then Except.error "Component Does Not Exist For this Id"
    else Except.ok (jsGet cs.components idx.toNat)

/-- `getConst(e)`: identical lookup; the deep copy of a pure payload
is the payload itself. -/
def getConst {α : Type} (cs : ComponentStore α) (e : Nat) : Except String (Option α) :=
  if cs.isEmptyComp then Except.error "This Does not support empty Comps"
  else
    let idx := cs.set.index e
    if idx = -1 then Except.error "Component Does Not Exist For this Id"
    else Except.ok (jsGet cs.components idx.toNat)

/-- `tryGet(e)`: empty kind rejected; absence yields `null`. -/
def tryGet {α : Type} (cs : ComponentStore α) (e : Nat) : Except String (Option α) :=
  if cs.isEmptyComp then Except.error "This Does not upport empty Comps"
  else
    let idx := cs.set.index e
    if idx = -1 then Except.ok none
    else Except.ok (jsGet cs.components idx.toNat)

/-- `tryGetConst(e)`: as `tryGet`, returning a (pure) copy. -/
def tryGetConst {α : Type} (cs : ComponentStore α) (e : Nat) : Except String (Option α) :=
  if cs.isEmptyComp then Except.error "This Does not support empty Comps"
  else
    let idx := cs.set.index e
    if idx = -1 then Except.ok none
    else Except.ok (jsGet cs.components idx.toNat)

/-- `swap(ent1, ent2, instancesOnly)`. -/
def swap {α : Type} (cs : ComponentStore α) (ent1 ent2 : Nat) (instancesOnly : Bool) :
    ComponentStore α × Int :=
  if ent1 = ent2 then (cs, -1)
  else
    let idx1 := cs.set.index ent1
    let idx2 := cs.set.index ent2
    if idx1 = -1 ∨ idx2 = -1 then (cs, -1)
    else
      let comps := if cs.isEmptyComp then cs.components
        else jsSetAny (jsSetAny cs.components idx1.toNat (jsGet cs.components idx2.toNat))
          idx2.toNat (jsGet cs.components idx1.toNat)
      let cs1 : ComponentStore α := { cs with components := comps }
      if instancesOnly then (cs1, 0)
      else
        let r := cs1.set.swap ent1 ent2
        if r.2 = -1 then ({ cs1 with set := r.1 }, -1)
        else ({ cs1 with set := r.1 }, 0)

/-- `sortEmpty(cmp)` delegates to the sparse set's (whole-array)
sort; only for the empty kind. -/
def sortEmpty {α : Type} (cs : ComponentStore α) (le : Nat → Nat → Bool) :
    Except String (Option (ComponentStore α × Int)) :=
  if !cs.isEmptyComp then Except.error "Method only for ComponentEmpty Type"
  else Except.ok ((cs.set.sort le).map (fun p => ({ cs with set := p.1 }, p.2)))

/-- The comparator applied to payload cells; JavaScript hands the raw
cell to the comparator, and the only cells the sort visits in a
well-formed store are occupied, so holes compare as equal (matching
the `NaN` a subtraction comparator would yield on `undefined`). -/
def cmpO {α : Type} (cmp : α → α → Int) (a b : Option α) : Int :=
  match a, b with
  | some x, some y => cmp x y
  | _, _ => 0

/-- Inner loop of `sortBasedComponent`: sift position `j+1` down by
adjacent swaps, swapping the payload cells directly and the entities
through `set.swap` (whose status the source discards). -/
def sortBCInner {α : Type} (cmp : α → α → Int) : ComponentStore α → Nat → ComponentStore α
  | cs, 0 => cs
  | cs, j + 1 =>
    if cmpO cmp (jsGet cs.components (j + 1)) (jsGet cs.components j) < 0 then
      let comps := jsSetAny (jsSetAny cs.components (j + 1) (jsGet cs.components j)) j
        (jsGet cs.components (j + 1))
      let e1 := cs.set.dense.getD (j + 1) 0
      let e2 := cs.set.dense.getD j 0
      let r := cs.set.swap e1 e2
      sortBCInner cmp { cs with components := comps, set := r.1 } j
    else cs

/-- Outer loop of `sortBasedComponent`: `i` ascends from 1 to
`len - 1` (`fuel` many iterations; the length never changes since
`set.swap` preserves it). -/
def sortBCOuter {α : Type} (cmp : α → α → Int) (length : Nat) :
    ComponentStore α → Nat → Nat → ComponentStore α
  | cs, _, 0 => cs
  | cs, i, fuel + 1 =>
    if i < length then sortBCOuter cmp length (sortBCInner cmp cs i) (i + 1) fuel
    else cs

/-- `sortBasedComponent(cmp)`: insertion sort by payload, standard
kind only; length ≤ 1 returns failure. -/
def sortBasedComponent {α : Type} (cs : ComponentStore α) (cmp : α → α → Int) :
    Except String (ComponentStore α × Int) :=
  if cs.isEmptyComp then Except.error "Method only for ComponentEmpty Type"
  else if cs.len ≤ 1 then Except.ok (cs, -1)
  else Except.ok (sortBCOuter cmp cs.len cs 1 (cs.len - 1), 0)

end ComponentStore

/-- C4: removing a contained entity from a standard-kind component
store succeeds (status 0), shrinks the length by one, leaves every
other dense entry and payload cell unchanged, moves the last dense
entry and its payload into the vacated position when that position is
not already the last, redirects the moved entity's sparse cell to the
vacated index, nulls the (now unused) last payload cell, and the
removed entity is no longer contained. -/
theorem c4_swap_remove_coherence {α : Type} (cs : ComponentStore α) (e : Nat)
    (hwf : cs.set.WF) (hstd : cs.isEmptyComp = false) (hc : cs.contains e = true) :
    ∃ cs', cs.remove e = some (cs', 0) ∧
      cs'.len = cs.len - 1 ∧
      cs'.contains e = false ∧
      (∀ j : Nat, j ≠ (cs.set.index e).toNat →
        cs'.set.dense.getD j 0 = cs.set.dense.getD j 0) ∧
      ((cs.set.index e).toNat ≠ cs.len - 1 →
        cs'.set.dense.getD (cs.set.index e).toNat 0 = cs.set.dense.getD (cs.len - 1) 0 ∧
        cs'.set.index (cs.set.dense.getD (cs.len - 1) 0) = cs.set.index e) ∧
      (∀ j : Nat, j ≠ (cs.set.index e).toNat → j ≠ cs.len - 1 →
        jsGet cs'.components j = jsGet cs.components j) ∧
      ((cs.set.index e).toNat ≠ cs.len - 1 →
        jsGet cs'.components (cs.set.index e).toNat = jsGet cs.components (cs.len - 1)) ∧
      jsGet cs'.components (cs.len - 1) = none := by
  obtain ⟨s', hrun, hlen, hdlen, hps, hhb, hother, hmoved, hnc, hredir⟩ :=
    SparseSet.remove_spec cs.set hwf e hc
  obtain ⟨v, hcv, hvt, hvl⟩ := (SparseSet.contains_iff cs.set e).mp hc
  have hne : ¬(cs.set.index e = -1) := by
    rw [SparseSet.index_eq cs.set e v hcv hvt hvl]
    exact hvt
  have hstd' : ¬(cs.isEmptyComp = true) := by
    rw [hstd]
    exact Bool.false_ne_true
  refine ⟨{ cs with
      components := jsSetAny
        (if ¬(cs.len - 1 = (cs.set.index e).toNat) then
          jsSetAny cs.components (cs.set.index e).toNat
            (jsGet cs.components (cs.len - 1))
        else cs.components) (cs.len - 1) none,
      set := s' }, ?_, ?_, ?_, ?_, ?_, ?_, ?_, ?_⟩
  · unfold ComponentStore.remove
    dsimp only
    rw [if_neg hne, if_neg hstd']
    dsimp only
    rw [hrun]
    rfl
  · exact hlen
  · exact hnc
  · exact hother
  · intro h
    exact ⟨hmoved h, hredir h⟩
  · intro j hji hjl
    dsimp only
    rw [jsGet_jsSetAny_ne _ _ _ _ hjl]
    by_cases hm : ¬(cs.len - 1 = (cs.set.index e).toNat)
    · rw [if_pos hm, jsGet_jsSetAny_ne _ _ _ _ hji]
    · rw [if_neg hm]
  · intro h
    dsimp only
    rw [jsGet_jsSetAny_ne _ _ _ _ h, if_pos (fun heq => h heq.symm), jsGet_jsSetAny_self]
  · exact jsGet_jsSetAny_self _ _ _

/-- Unwrap `ComponentStore.add` for building concrete test states
(the `none` branch never fires: `set.add` creates the page the
rollback would touch). -/
def ComponentStore.addU {α : Type} (cs : ComponentStore α) (e : Nat) (p : α) :
    ComponentStore α :=
  match cs.add e p false true with
  | some (cs', _) => cs'
  | none => cs

/-- The S2 scenario: a standard store holding `entA`, `entB`, `entC`
with payloads 1, 2, 3 in that dense order. -/
def c4Store : ComponentStore Nat :=
  (((ComponentStore.mk0 Nat false handleMedium 128 4).addU entA 1).addU entB 2).addU
    entC 3

/-- S2 instance of C4: removing `entB` leaves dense order
`[entA, entC]` with payloads `[1, 3]`, `get entA = 1`,
`get entC = 3`, and `entB` no longer contained. -/
theorem c4_swap_remove_coherence_witness :
    (c4Store.set.WF ∧ c4Store.isEmptyComp = false ∧ c4Store.contains entB = true) ∧
    (∃ cs', c4Store.remove entB = some (cs', 0) ∧
      cs'.len = c4Store.len - 1 ∧
      cs'.contains entB = false ∧
      (∀ j : Nat, j ≠ (c4Store.set.index entB).toNat →
        cs'.set.dense.getD j 0 = c4Store.set.dense.getD j 0) ∧
      ((c4Store.set.index entB).toNat ≠ c4Store.len - 1 →
        cs'.set.dense.getD (c4Store.set.index entB).toNat 0 =
          c4Store.set.dense.getD (c4Store.len - 1) 0 ∧
        cs'.set.index (c4Store.set.dense.getD (c4Store.len - 1) 0) =
          c4Store.set.index entB) ∧
      (∀ j : Nat, j ≠ (c4Store.set.index entB).toNat → j ≠ c4Store.len - 1 →
        jsGet cs'.components j = jsGet c4Store.components j) ∧
      ((c4Store.set.index entB).toNat ≠ c4Store.len - 1 →
        jsGet cs'.components (c4Store.set.index entB).toNat =
          jsGet c4Store.components (c4Store.len - 1)) ∧
      jsGet cs'.components (c4Store.len - 1) = none) ∧
    (c4Store.remove entB).map (fun p => p.1.set.dense.take 2) = some [entA, entC] ∧
    (c4Store.remove entB).map (fun p => p.1.components.take 2) =
      some [some 1, some 3] ∧
    (c4Store.remove entB).map (fun p => p.1.get entA) = some (Except.ok (some 1)) ∧
    (c4Store.remove entB).map (fun p => p.1.get entC) = some (Except.ok (some 3)) ∧
    (c4Store.remove entB).map (fun p => p.1.contains entB) = some false ∧
    (c4Store.remove entB).map (fun p => p.2) = some 0 :=
  ⟨⟨by decide, rfl, by decide⟩,
   c4_swap_remove_coherence c4Store entB (by decide) rfl (by decide),
   by decide, by decide, by decide, by decide, by decide, by decide⟩

/-! ## EntityStore

Source: `EntityStore.js`.  Generational slot allocator: a dense slot
array of encoded handles with the free list threaded through the freed
cells themselves (a freed cell's index field is the next free slot,
its version field the next generation to issue).

Modelled for the default typed flavour (`Uint32Array`/`BigUint64Array`
zero-initialised, length equal to `cap`, out-of-range reads decode to
0, out-of-range writes dropped).

The `OutOfHandles` guard `append_index === INVALID_IDX` needs care:
`#append_index` is always an ordinary `Number`, while `#INVALID_IDX`
is `(1 << indexBits) - 1` only when the handle type is `Number`
(`totalBits ≤ 32`) and a `BigInt` otherwise.  A strict `===` between a
`Number` and a `BigInt` is always false, and for `indexBits = 31` the
32-bit-signed shift makes `(1 << 31) - 1` negative, so the comparison
can only ever be true when `totalBits ≤ 32` AND `indexBits ≤ 30`, in
which case the sentinel is the intended `2^indexBits - 1`
(`oohFires` below). -/

/-- The two `throw` reasons of `create`. -/
inductive CreateErr where
  | outOfHandles
  | capacityExceeded
deriving DecidableEq, Repr

/-- The entity-store state. -/
structure EntityStore where
  hb : HandleBits
  entities : List Nat
  appendIndex : Nat
  freeSlot : Int
  cap : Nat
  resizable : Bool
deriving DecidableEq, Repr

/-- When the source's `this.#append_index === this.#INVALID_IDX` check
can actually fire: only a codec whose sentinel is an ordinary
non-negative `Number` — total width ≤ 32 bits (else `#INVALID_IDX` is
a `BigInt` and `Number === BigInt` is always false) and
`indexBits ≤ 30` (at 31 the 32-bit-signed `(1 << 31) - 1` is negative)
— and then exactly at `appendIndex = 2^indexBits - 1`. -/
def oohFires (hb : HandleBits) (appendIndex : Nat) : Prop :=
  hb.indexBits + hb.versionBits ≤ 32 ∧ hb.indexBits ≤ 30 ∧
    appendIndex = invalidIndex hb

instance instDecOohFires (hb : HandleBits) (appendIndex : Nat) :
    Decidable (oohFires hb appendIndex) := by
  unfold oohFires
  infer_instance

namespace EntityStore

/-- Constructor: zero-filled slots, empty free list. -/
def mk0 (hb : HandleBits) (capacity : Nat) (resizable : Bool) : EntityStore :=
  ⟨hb, List.replicate capacity 0, 0, -1, capacity, resizable⟩

/-- `isAlive(e)`: `index(e) < appendIndex && entities[index(e)] === e`. -/
def isAlive (s : EntityStore) (e : Nat) : Bool :=
  decide (hindex s.hb e < s.appendIndex) &&
    decide (s.entities.getD (hindex s.hb e) 0 = e)

/-- `create()`: pop the free list if non-empty (re-issuing the stored
version); otherwise check `OutOfHandles` (a comparison that can only
fire on ≤32-bit codecs with `indexBits ≤ 30`, see `oohFires`), grow or
throw `CapacityExceeded` when `appendIndex === cap - 1`, then append a
fresh version-0 handle. -/
def create (s : EntityStore) : Except CreateErr (EntityStore × Nat) :=
  if s.freeSlot ≠ -1 then
    let fs := s.freeSlot.toNat
    let ent := s.entities.getD fs 0
    let version := hversion s.hb ent
    let nextFree := hindex s.hb ent
    let newEnt := hmake s.hb (fs : Int) (version : Int)
    .ok ({ s with entities := s.entities.set fs newEnt, freeSlot := (nextFree : Int) }, newEnt)
  else if oohFires s.hb s.appendIndex then .error .outOfHandles
  else
    let s1? : Except CreateErr EntityStore :=
      if (s.appendIndex : Int) = (s.cap : Int) - 1 then
        if !s.resizable then .error .capacityExceeded
        else .ok { s with entities := s.entities ++ List.replicate s.cap 0, cap := s.cap * 2 }
      else .ok s
    match s1? with
    | .error err => .error err
    | .ok s1 =>
      let entity := hmake s1.hb (s1.appendIndex : Int) 0
      let s2 := { s1 with entities := s1.entities.set s1.appendIndex entity,
                          appendIndex := s1.appendIndex + 1 }
      .ok (s2, entity)

/-- `remove(e)`: throw on a dead handle, else store
`make(freeSlot, version(e) + 1)` in the slot and head the free list
there. -/
def remove (s : EntityStore) (e : Nat) : Except String EntityStore :=
  if ¬s.isAlive e then .error "Invalid Handle to remove"
  else
    let idx := hindex s.hb e
    let version := hversion s.hb e
    .ok { s with
      entities := s.entities.set idx (hmake s.hb s.freeSlot ((version : Int) + 1)),
      freeSlot := (idx : Int) }

/-- `k` consecutive `create()` calls, collecting the issued handles;
stops at the first failure. -/
def createN (s : EntityStore) : Nat → EntityStore × List Nat
  | 0 => (s, [])
  | n + 1 =>
    match s.create with
    | .ok (s', h) => let r := createN s' n; (r.1, h :: r.2)
    | .error _ => (s, [])

/-- Remove each listed entity in order (a throw leaves the state
unchanged and the loop would abort; in our uses every removal
succeeds). -/
def removeSeq (s : EntityStore) : List Nat → EntityStore
  | [] => s
  | e :: es =>
    match s.remove e with
    | .ok s' => removeSeq s' es
    | .error _ => s

end EntityStore

/-! ## Registry

Source: `Registry.js`.  An `EntityStore` plus a
`Map<ComponentConstructor, ComponentStore>`; component constructors
are opaque keys, modelled as `Nat`, the map as an association list in
insertion order (`Map.values()` iterates in insertion order).  All
payloads share the model type `α`.  `prepare` builds a store from the
registry config when the key is absent; that construction is passed in
as the `fresh` value. -/

/-- `SENTINEL = -1`. -/
def SENTINEL : Int := -1

/-- Is an `Except` the thrown case? -/
def isErr {ε β : Type} : Except ε β → Bool
  | Except.error _ => true
  | Except.ok _ => false

/-- The registry state. -/
structure Registry (α : Type) where
  entities : EntityStore
  components : List (Nat × ComponentStore α)
deriving DecidableEq

namespace Registry

/-- `this.#components.get(comp)`. -/
def getStore {α : Type} (r : Registry α) (c : Nat) : Option (ComponentStore α) :=
  (r.components.find? (fun p => p.1 = c)).map (fun p => p.2)

/-- Write back the (mutated-in-JS) store under its key. -/
def setStore {α : Type} (r : Registry α) (c : Nat) (cs : ComponentStore α) : Registry α :=
  { r with components := r.components.map (fun p => if p.1 = c then (c, cs) else p) }

/-- `valid(e)`. -/
def valid {α : Type} (r : Registry α) (e : Nat) : Bool := r.entities.isAlive e

/-- `create()`. -/
def create {α : Type} (r : Registry α) : Except CreateErr (Registry α × Nat) :=
  (r.entities.create).map (fun q => ({ r with entities := q.1 }, q.2))

/-- `len(comp)`: `SENTINEL` for an unregistered type. -/
def len {α : Type} (r : Registry α) (c : Nat) : Int :=
  match r.getStore c with
  | some cs => (cs.len : Int)
  | none => SENTINEL

/-- `prepare(comp, ...)`: return the registered store, or register
`fresh` (the store the config would construct). -/
def prepare {α : Type} (r : Registry α) (c : Nat) (fresh : ComponentStore α) :
    Registry α × ComponentStore α :=
  match r.getStore c with
  | some cs => (r, cs)
  | none => ({ r with components := r.components ++ [(c, fresh)] }, fresh)

/-- `add(entity, comp, ...)`: liveness-guarded, registers the store on
demand, then delegates to the store's `add`. -/
def add {α : Type} (r : Registry α) (e c : Nat) (fresh : ComponentStore α) (p : α)
    (replaceFlag resizeFlag : Bool) : Except String (Option (Registry α × Int)) :=
  if ¬r.entities.isAlive e then Except.error "Entity Does not exixt"
  else
    let pr := r.prepare c fresh
    Except.ok ((pr.2.add e p replaceFlag resizeFlag).map
      (fun q => (pr.1.setStore c q.1, q.2)))

/-- `replace(entity, comp, args)`. -/
def replace {α : Type} (r : Registry α) (e c : Nat) (p : α) :
    Except String (Option (Registry α × Int)) :=
  if ¬r.entities.isAlive e then Except.error "Entity does not exist"
  else match r.getStore c with
    | none => Except.error "no such component registerd"
    | some cs =>
      if ¬cs.contains e then Except.error "No such entity is registerd for comp"
      else Except.ok ((cs.add e p true true).map (fun q => (r.setStore c q.1, q.2)))

/-- `remove(entity, comp)`. -/
def remove {α : Type} (r : Registry α) (e c : Nat) :
    Except String (Option (Registry α × Int)) :=
  if ¬r.entities.isAlive e then Except.error "Entity does not exist"
  else match r.getStore c with
    | none => Except.error "no such component registerd"
    | some cs => Except.ok ((cs.remove e).map (fun q => (r.setStore c q.1, q.2)))

/-- `removeIfExist(entity, comp)`. -/
def removeIfExist {α : Type} (r : Registry α) (e c : Nat) :
    Except String (Option (Registry α × Int)) :=
  if ¬r.entities.isAlive e then Except.error "Entity does not exist"
  else match r.getStore c with
    | none => Except.ok (some (r, SENTINEL))
    | some cs =>
      if ¬cs.contains e then Except.ok (some (r, SENTINEL))
      else Except.ok ((cs.remove e).map (fun q => (r.setStore c q.1, q.2)))

/-- One iteration of `removeAll`'s loop: skip a store that does not
contain the entity, otherwise remove from it. -/
def removeAllStep {α : Type} (e : Nat) (p : Nat × ComponentStore α) :
    Option (Nat × ComponentStore α) :=
  if p.2.contains e then (p.2.remove e).map (fun q => (p.1, q.1))
  else some p

/-- `removeAll`'s loop over every registered store in insertion
order. -/
def removeAllStores {α : Type} (e : Nat) :
    List (Nat × ComponentStore α) → Option (List (Nat × ComponentStore α))
  | [] => some []
  | p :: ps =>
    match removeAllStep e p, removeAllStores e ps with
    | some q, some qs => some (q :: qs)
    | _, _ => none

/-- `removeAll(entity)`: liveness-guarded purge of the entity from
every store. -/
def removeAll {α : Type} (r : Registry α) (e : Nat) :
    Except String (Option (Registry α)) :=
  if ¬r.entities.isAlive e then Except.error "Entity does not exist"
  else Except.ok ((removeAllStores e r.components).map
    (fun cs => { r with components := cs }))

/-- `destroy(entity)`: silent no-op when not valid, else `removeAll`
then free the entity slot.  (`none` models an escaped exception; the
guarded branches can never throw.) -/
def destroy {α : Type} (r : Registry α) (e : Nat) : Option (Registry α) :=
  if ¬r.valid e then some r
  else match r.removeAll e with
    | Except.error _ => none
    | Except.ok none => none
    | Except.ok (some r1) =>
      match r1.entities.remove e with
      | Except.error _ => none
      | Except.ok es => some { r1 with entities := es }

/-- `has(entity, comp)`. -/
def has {α : Type} (r : Registry α) (e c : Nat) : Except String Bool :=
  if ¬r.entities.isAlive e then Except.error "Entity does not exist"
  else match r.getStore c with
    | none => Except.error "no such component registerd"
    | some cs => Except.ok (cs.contains e)

/-- `get(entity, comp)`. -/
def get {α : Type} (r : Registry α) (e c : Nat) : Except String (Option α) :=
  if ¬r.entities.isAlive e then Except.error "Entity does not exist"
  else match r.getStore c with
    | none => Except.error "no such component registerd"
    | some cs => cs.get e

/-- `getConst(entity, comp)`. -/
def getConst {α : Type} (r : Registry α) (e c : Nat) : Except String (Option α) :=
  if ¬r.entities.isAlive e then Except.error "Entity does not exist"
  else match r.getStore c with
    | none => Except.error "no such component registerd"
    | some cs => cs.getConst e

/-- `tryGet(entity, comp)`: NO liveness check; throws only when the
type is unregistered, else delegates. -/
def tryGet {α : Type} (r : Registry α) (e c : Nat) : Except String (Option α) :=
  match r.getStore c with
  | none => Except.error "no such component registerd"
  | some cs => cs.tryGet e

/-- `tryGetConst(entity, comp)`: same shape as `tryGet`. -/
def tryGetConst {α : Type} (r : Registry α) (e c : Nat) : Except String (Option α) :=
  match r.getStore c with
  | none => Except.error "no such component registerd"
  | some cs => cs.tryGetConst e

/-- Unwrap `create` for building concrete test states. -/
def createU {α : Type} (r : Registry α) : Registry α × Nat :=
  match r.create with
  | Except.ok q => q
  | Except.error _ => (r, 0)

/-- Unwrap `add` for building concrete test states. -/
def addV {α : Type} (r : Registry α) (e c : Nat) (fresh : ComponentStore α) (p : α) :
    Registry α :=
  match r.add e c fresh p true true with
  | Except.ok (some q) => q.1
  | _ => r

/-- Unwrap `destroy` for building concrete test states. -/
def destroyU {α : Type} (r : Registry α) (e : Nat) : Registry α :=
  (r.destroy e).getD r

end Registry

/-! ### EntityStore: create/remove behaviour with an empty free list -/

namespace EntityStore

/-- Outcome characterisation of one `create()` with an empty free
list: `OutOfHandles` exactly when the sentinel comparison fires
(`oohFires`: a ≤32-bit codec with `indexBits ≤ 30` at
`appendIndex = INVALID_INDEX`; never on other codecs), and for a
non-resizable store `CapacityExceeded` exactly at
`appendIndex = cap - 1` (one slot before the capacity is actually
full) when the sentinel check did not fire. -/
theorem create_char (s : EntityStore) (hfs : s.freeSlot = -1) :
    (s.create = Except.error CreateErr.outOfHandles ↔
      oohFires s.hb s.appendIndex) ∧
    (s.resizable = false →
      (s.create = Except.error CreateErr.capacityExceeded ↔
        ¬oohFires s.hb s.appendIndex ∧ (s.appendIndex : Int) = (s.cap : Int) - 1)) := by
  unfold create
  rw [if_neg (by simp [hfs])]
  by_cases hooh : oohFires s.hb s.appendIndex
  · simp [hooh]
  · rw [if_neg hooh]
    by_cases hcap : (s.appendIndex : Int) = (s.cap : Int) - 1
    · rw [if_pos hcap]
      by_cases hrz : s.resizable
      · simp [hrz, hooh, hcap]
      · simp [Bool.not_eq_true] at hrz
        simp [hrz, hooh, hcap]
    · rw [if_neg hcap]
      simp [hooh, hcap]

/-- A successful appending `create` issues `make(appendIndex, 0)`,
stores it at the slot and bumps `appendIndex`. -/
theorem create_append_ok (s : EntityStore) (hfs : s.freeSlot = -1)
    (hooh : ¬oohFires s.hb s.appendIndex)
    (hcap : (s.appendIndex : Int) ≠ (s.cap : Int) - 1) :
    s.create = Except.ok
      ({ s with entities := s.entities.set s.appendIndex (hmake s.hb (s.appendIndex : Int) 0),
                appendIndex := s.appendIndex + 1 }, hmake s.hb (s.appendIndex : Int) 0) := by
  unfold create
  rw [if_neg (by simp [hfs]), if_neg hooh, if_neg hcap]

/-- Running `k` appending creates from a state with an empty free list
that has room (`appendIndex + k + 1 ≤ cap`) and stays clear of
`INVALID_INDEX`: every call succeeds, handles are
`make(appendIndex + j, 0)` in order, slots are filled accordingly, and
everything else is untouched. -/
theorem createN_spec (k : Nat) :
    ∀ s : EntityStore, s.freeSlot = -1 → s.resizable = false →
    s.entities.length = s.cap →
    s.appendIndex + k + 1 ≤ s.cap →
    s.appendIndex + k ≤ invalidIndex s.hb →
    (createN s k).1.hb = s.hb ∧
    (createN s k).1.cap = s.cap ∧
    (createN s k).1.resizable = false ∧
    (createN s k).1.freeSlot = -1 ∧
    (createN s k).1.appendIndex = s.appendIndex + k ∧
    (createN s k).1.entities.length = s.cap ∧
    (createN s k).2 = (List.range k).map (fun j => hmake s.hb ((s.appendIndex + j : Nat) : Int) 0) ∧
    (∀ i, i < s.appendIndex → (createN s k).1.entities.getD i 0 = s.entities.getD i 0) ∧
    (∀ j, j < k →
      (createN s k).1.entities.getD (s.appendIndex + j) 0 =
        hmake s.hb ((s.appendIndex + j : Nat) : Int) 0) := by
  induction k with
  | zero =>
    intro s h1 h2 h3 h4 h5
    refine ⟨rfl, rfl, h2, h1, by simp [createN], h3, by simp [createN], ?_, ?_⟩
    · intro i _; rfl
    · intro j hj; omega
  | succ n ih =>
    intro s h1 h2 h3 h4 h5
    have hooh : ¬oohFires s.hb s.appendIndex := by
      intro hcon
      have := hcon.2.2
      omega
    have hcap : (s.appendIndex : Int) ≠ (s.cap : Int) - 1 := by
      have : s.appendIndex + 1 < s.cap := by omega
      omega
    have hstep := create_append_ok s h1 hooh hcap
    set s' : EntityStore :=
      { s with entities := s.entities.set s.appendIndex (hmake s.hb (s.appendIndex : Int) 0),
               appendIndex := s.appendIndex + 1 } with hs'
    have hlen' : s'.entities.length = s.cap := by
      simp [hs', List.length_set, h3]
    have ih' := ih s' h1 h2 hlen' (by simp [hs']; omega) (by simp [hs']; omega)
    have hrun : createN s (n + 1) =
        ((createN s' n).1, hmake s.hb (s.appendIndex : Int) 0 :: (createN s' n).2) := by
      rw [createN, hstep]
    rw [hrun]
    dsimp only
    have happ : s'.appendIndex = s.appendIndex + 1 := rfl
    obtain ⟨i1, i2, i3, i4, i5, i6, i7, i8, i9⟩ := ih'
    refine ⟨i1, i2, i3, i4, by rw [i5, happ]; omega, i6, ?_, ?_, ?_⟩
    · rw [i7, List.range_succ_eq_map, List.map_cons, List.map_map]
      congr 1
      apply List.map_congr_left
      intro j _
      show hmake s'.hb ((s'.appendIndex + j : Nat) : Int) 0 =
        hmake s.hb ((s.appendIndex + (j + 1) : Nat) : Int) 0
      rw [show s'.hb = s.hb from rfl,
        show (s'.appendIndex + j : Nat) = (s.appendIndex + (j + 1) : Nat) by rw [happ]; omega]
    · intro i hi
      rw [i8 i (by omega)]
      simp only [hs']
      exact getD_set_ne _ _ _ _ _ (by omega)
    · intro j hj
      rcases Nat.eq_zero_or_pos j with hj0 | hj0
      · subst hj0
        rw [Nat.add_zero, i8 s.appendIndex (by omega)]
        simp only [hs']
        exact getD_set_self _ _ _ _ (by omega)
      · have htail := i9 (j - 1) (by omega)
        rw [happ] at htail
        calc (createN s' n).1.entities.getD (s.appendIndex + j) 0
            = (createN s' n).1.entities.getD (s.appendIndex + 1 + (j - 1)) 0 := by
              congr 1; omega
          _ = hmake s'.hb ((s.appendIndex + 1 + (j - 1) : Nat) : Int) 0 := htail
          _ = hmake s.hb ((s.appendIndex + j : Nat) : Int) 0 := by
              rw [show s'.hb = s.hb from rfl,
                show (s.appendIndex + 1 + (j - 1) : Nat) = (s.appendIndex + j : Nat) by omega]

end EntityStore

/-! ### C3: generational safety under recycling -/

/-- One `remove(e); create()` cycle (both calls succeed in every state
the C3 counterexample visits). -/
def recycleOnce (p : EntityStore × Nat) : EntityStore × Nat :=
  match p.1.remove p.2 with
  | .ok s' =>
    match s'.create with
    | .ok q => q
    | .error _ => (s', p.2)
  | .error _ => p

/-- Iterate `recycleOnce`. -/
def recycleMany : Nat → EntityStore × Nat → EntityStore × Nat
  | 0, p => p
  | n + 1, p => recycleMany n (recycleOnce p)

/-- The first entity of a fresh Small-codec store (slot 0, version 0). -/
def c3Start : EntityStore × Nat :=
  match (EntityStore.mk0 handleSmall 10 true).create with
  | .ok p => p
  | .error _ => (EntityStore.mk0 handleSmall 10 true, 0)

/-- After 16 remove/create cycles on the Small (12/4) codec the
version field has wrapped around. -/
def c3End : EntityStore × Nat := recycleMany 16 c3Start

/-- C3 counterexample: with the pre-built Small codec (4 version
bits), create a first entity `e` at slot 0 with version 0, then
remove/create 16 times.  Each create re-issues slot 0, but the 16th
recycled handle has version `16 % 2^4 = 0`, NOT strictly greater than
`version(e) = 0` — the version increment in `EntityStore.remove` is
masked to the field width by `make`, so versions wrap and the claim's
"no restriction on how many times a slot has been recycled" fails. -/
theorem c3_counterexample :
    hindex handleSmall c3Start.2 = 0 ∧ hversion handleSmall c3Start.2 = 0 ∧
    hindex handleSmall c3End.2 = 0 ∧ hversion handleSmall c3End.2 = 0 ∧
    ¬ hversion handleSmall c3Start.2 < hversion handleSmall c3End.2 := by decide

/-! ### Trace semantics for the entity store

To reason about "every subsequent `create()`", traces of API calls are
run over the store; a call that throws leaves the state unchanged (the
code throws before mutating). -/

/-- An entity-store API call. -/
inductive EOp where
  | create : EOp
  | remove (e : Nat) : EOp
deriving DecidableEq, Repr

/-- Run one call, keeping the state on a throw. -/
def estep (s : EntityStore) : EOp → EntityStore
  | .create =>
    match s.create with
    | .ok p => p.1
    | .error _ => s
  | .remove e =>
    match s.remove e with
    | .ok s' => s'
    | .error _ => s

/-- Run a trace of calls. -/
def erun (s : EntityStore) : List EOp → EntityStore
  | [] => s
  | op :: ops => erun (estep s op) ops

/-- The version field currently stored at slot `i`. -/
def slotVer (s : EntityStore) (i : Nat) : Nat :=
  hversion s.hb (s.entities.getD i 0)

/-- Sanity of a starting store: the free-list head is `-1` or a
decoded slot index, and `appendIndex` has not passed `INVALID_INDEX`.
(The free-list bounds are preserved by every call — see `FsInv` — but
the `appendIndex` bound is only an initial-state assumption: the
source's dead sentinel comparison lets appends pass `INVALID_INDEX` on
codecs where it cannot fire.) -/
def EInv (s : EntityStore) : Prop :=
  -1 ≤ s.freeSlot ∧ s.freeSlot < (2 : Int) ^ s.hb.indexBits ∧
    s.appendIndex ≤ invalidIndex s.hb

/-- The free-list bounds alone; unlike the `appendIndex` bound of
`EInv`, these ARE preserved by every call. -/
def FsInv (s : EntityStore) : Prop :=
  -1 ≤ s.freeSlot ∧ s.freeSlot < (2 : Int) ^ s.hb.indexBits

/-- Along a trace, no removal wraps the version field of slot `i`. -/
def NoWrapAt (i : Nat) : EntityStore → List EOp → Prop
  | _, [] => True
  | s, op :: ops =>
    (slotVer (estep s op) i = slotVer s i ∨
      slotVer s i + 1 < 2 ^ s.hb.versionBits) ∧
    NoWrapAt i (estep s op) ops

theorem hindex_lt_two_pow (hb : HandleBits) (n : Nat) :
    hindex hb n < 2 ^ hb.indexBits :=
  Nat.mod_lt _ (Nat.two_pow_pos _)

theorem hversion_lt_two_pow (hb : HandleBits) (n : Nat) :
    hversion hb n < 2 ^ hb.versionBits :=
  Nat.mod_lt _ (Nat.two_pow_pos _)

namespace EntityStore

/-- The free-list pop branch of `create`. -/
theorem create_ok_pop (s : EntityStore) (hfs : s.freeSlot ≠ -1) :
    s.create = Except.ok
      ({ s with
          entities := s.entities.set s.freeSlot.toNat
            (hmake s.hb (s.freeSlot.toNat : Int)
              (hversion s.hb (s.entities.getD s.freeSlot.toNat 0) : Int)),
          freeSlot := ((hindex s.hb (s.entities.getD s.freeSlot.toNat 0) : Nat) : Int) },
        hmake s.hb (s.freeSlot.toNat : Int)
          (hversion s.hb (s.entities.getD s.freeSlot.toNat 0) : Int)) := by
  unfold create
  rw [if_pos hfs]

/-- The grow-then-append branch of `create`. -/
theorem create_ok_grow (s : EntityStore) (hfs : s.freeSlot = -1)
    (hooh : ¬oohFires s.hb s.appendIndex)
    (hcap : (s.appendIndex : Int) = (s.cap : Int) - 1)
    (hrz : s.resizable = true) :
    s.create = Except.ok
      ({ s with
          entities := (s.entities ++ List.replicate s.cap 0).set s.appendIndex
            (hmake s.hb (s.appendIndex : Int) 0),
          appendIndex := s.appendIndex + 1,
          cap := s.cap * 2 },
        hmake s.hb (s.appendIndex : Int) 0) := by
  unfold create
  rw [if_neg (by simp [hfs]), if_neg hooh, if_pos hcap, hrz]
  rfl

/-- The four shapes a call can leave the store in: unchanged (throw),
free-list pop, append (with or without growth), or removal of a live
entity. -/
theorem estep_cases (s : EntityStore) (op : EOp) :
    estep s op = s ∨
    (op = EOp.create ∧ s.freeSlot ≠ -1 ∧
      estep s op = { s with
        entities := s.entities.set s.freeSlot.toNat
          (hmake s.hb (s.freeSlot.toNat : Int)
            (hversion s.hb (s.entities.getD s.freeSlot.toNat 0) : Int)),
        freeSlot := ((hindex s.hb (s.entities.getD s.freeSlot.toNat 0) : Nat) : Int) }) ∨
    (op = EOp.create ∧ s.freeSlot = -1 ∧ ¬oohFires s.hb s.appendIndex ∧
      ∃ pad newCap, estep s op = { s with
        entities := (s.entities ++ List.replicate pad 0).set s.appendIndex
          (hmake s.hb (s.appendIndex : Int) 0),
        appendIndex := s.appendIndex + 1,
        cap := newCap }) ∨
    (∃ e, op = EOp.remove e ∧ s.isAlive e = true ∧
      estep s op = { s with
        entities := s.entities.set (hindex s.hb e)
          (hmake s.hb s.freeSlot ((hversion s.hb e : Int) + 1)),
        freeSlot := ((hindex s.hb e : Nat) : Int) }) := by
  cases op with
  | create =>
    have hec : estep s EOp.create =
        (match s.create with | .ok p => p.1 | .error _ => s) := rfl
    by_cases hfs : s.freeSlot ≠ -1
    · right; left
      refine ⟨rfl, hfs, ?_⟩
      rw [hec, create_ok_pop s hfs]
    · have hfs' : s.freeSlot = -1 := by omega
      by_cases hooh : oohFires s.hb s.appendIndex
      · left
        rw [hec]
        unfold create
        rw [if_neg (by simp [hfs']), if_pos hooh]
      · by_cases hcap : (s.appendIndex : Int) = (s.cap : Int) - 1
        · cases hrz : s.resizable with
          | false =>
            left
            rw [hec]
            unfold create
            rw [if_neg (by simp [hfs']), if_neg hooh, if_pos hcap, hrz]
            simp
          | true =>
            right; right; left
            refine ⟨rfl, hfs', hooh, s.cap, s.cap * 2, ?_⟩
            rw [hec, create_ok_grow s hfs' hooh hcap hrz]
            rw [hrz]
        · right; right; left
          refine ⟨rfl, hfs', hooh, 0, s.cap, ?_⟩
          rw [hec, create_append_ok s hfs' hooh hcap]
          simp
  | remove e =>
    have her : estep s (EOp.remove e) =
        (match s.remove e with | .ok s' => s' | .error _ => s) := rfl
    by_cases halive : s.isAlive e = true
    · right; right; right
      refine ⟨e, rfl, halive, ?_⟩
      rw [her]
      unfold remove
      rw [if_neg (by simp [halive])]
    · left
      rw [her]
      unfold remove
      rw [if_pos (by simp [halive])]

end EntityStore

/-- `isAlive` unfolded. -/
theorem isAlive_iff (s : EntityStore) (e : Nat) :
    s.isAlive e = true ↔
      hindex s.hb e < s.appendIndex ∧ s.entities.getD (hindex s.hb e) 0 = e := by
  simp [EntityStore.isAlive]

theorem estep_hb (s : EntityStore) (op : EOp) : (estep s op).hb = s.hb := by
  rcases EntityStore.estep_cases s op with h | ⟨_, _, h⟩ | ⟨_, _, _, pad, nc, h⟩ | ⟨e, _, _, h⟩ <;> rw [h]

theorem estep_append_le (s : EntityStore) (op : EOp) :
    s.appendIndex ≤ (estep s op).appendIndex := by
  rcases EntityStore.estep_cases s op with h | ⟨_, _, h⟩ | ⟨_, _, _, pad, nc, h⟩ | ⟨e, _, _, h⟩ <;>
    rw [h] <;> simp

theorem int_two_pow_cast (b : Nat) : ((2 ^ b : Nat) : Int) = (2 : Int) ^ b := by
  push_cast
  ring

theorem FsInv_estep (s : EntityStore) (op : EOp) (h : FsInv s) : FsInv (estep s op) := by
  obtain ⟨h1, h2⟩ := h
  have hp := int_two_pow_cast s.hb.indexBits
  have hidx : ∀ n : Nat, hindex s.hb n < 2 ^ s.hb.indexBits :=
    fun n => hindex_lt_two_pow s.hb n
  rcases EntityStore.estep_cases s op with heq | ⟨_, hfs, heq⟩ | ⟨_, hfs, hooh, pad, nc, heq⟩ |
    ⟨e, hop, halive, heq⟩ <;> rw [heq] <;> unfold FsInv <;> (try dsimp only)
  · exact ⟨h1, h2⟩
  · refine ⟨by omega, ?_⟩
    have := hidx (s.entities.getD s.freeSlot.toNat 0)
    show ((hindex s.hb (s.entities.getD s.freeSlot.toNat 0) : Nat) : Int) <
      (2 : Int) ^ s.hb.indexBits
    omega
  · exact ⟨h1, h2⟩
  · refine ⟨by omega, ?_⟩
    have := hidx e
    show ((hindex s.hb e : Nat) : Int) < (2 : Int) ^ s.hb.indexBits
    omega

/-- Once the free list is non-empty its head stays non-negative
forever: a pop re-heads it at a decoded (non-negative) index and a
removal at the removed slot's index, so the `-1` sentinel is never
written back. -/
theorem freeSlot_nonneg_estep (s : EntityStore) (op : EOp) (h : 0 ≤ s.freeSlot) :
    0 ≤ (estep s op).freeSlot := by
  rcases EntityStore.estep_cases s op with heq | ⟨_, hfs, heq⟩ | ⟨_, hfs, hooh, pad, nc, heq⟩ |
    ⟨e, hop, halive, heq⟩ <;> rw [heq] <;> (try dsimp only)
  · exact h
  · show (0 : Int) ≤ ((hindex s.hb (s.entities.getD s.freeSlot.toNat 0) : Nat) : Int)
    omega
  · exact h
  · show (0 : Int) ≤ ((hindex s.hb e : Nat) : Int)
    omega

/-- A call either leaves a slot's stored version field alone or (on
removal of the live entity at that slot) bumps it by one modulo the
version-field width. -/
theorem slotVer_estep (s : EntityStore) (op : EOp) (i : Nat) (hi : i < s.appendIndex) :
    slotVer (estep s op) i = slotVer s i ∨
    slotVer (estep s op) i = (slotVer s i + 1) % 2 ^ s.hb.versionBits := by
  rcases EntityStore.estep_cases s op with heq | ⟨_, hfs, heq⟩ | ⟨_, hfs, hooh, pad, nc, heq⟩ |
    ⟨e, hop, halive, heq⟩
  · left; rw [heq]
  · left
    rw [heq]
    unfold slotVer
    dsimp only
    rw [getD_set]
    split
    · rename_i hcase
      rw [hversion_hmake_of_lt _ _ _ (hversion_lt_two_pow _ _), hcase.1]
    · rfl
  · left
    rw [heq]
    unfold slotVer
    dsimp only
    rw [getD_set, if_neg (by intro hcase; omega), getD_append_replicate_zero]
  · rw [heq]
    unfold slotVer
    dsimp only
    rw [getD_set]
    split
    · rename_i hcase
      right
      obtain ⟨hie, hlen⟩ := hcase
      have hgetD : s.entities.getD (hindex s.hb e) 0 = e := ((isAlive_iff s e).mp halive).2
      rw [hversion_hmake_int]
      have hcast : (hversion s.hb e : Int) + 1 = ((hversion s.hb e + 1 : Nat) : Int) := by
        push_cast; ring
      rw [hcast, natCast_emod_two_pow_toNat, hie, hgetD]
    · left
      rfl

theorem erun_hb (ops : List EOp) : ∀ s : EntityStore, (erun s ops).hb = s.hb := by
  induction ops with
  | nil => intro s; rfl
  | cons op rest ih =>
    intro s
    show (erun (estep s op) rest).hb = s.hb
    rw [ih (estep s op), estep_hb]

theorem erun_append_le (ops : List EOp) :
    ∀ s : EntityStore, s.appendIndex ≤ (erun s ops).appendIndex := by
  induction ops with
  | nil => intro s; exact Nat.le_refl _
  | cons op rest ih =>
    intro s
    exact Nat.le_trans (estep_append_le s op) (ih (estep s op))

theorem FsInv_erun (ops : List EOp) :
    ∀ s : EntityStore, FsInv s → FsInv (erun s ops) := by
  induction ops with
  | nil => intro s h; exact h
  | cons op rest ih =>
    intro s h
    exact ih (estep s op) (FsInv_estep s op h)

theorem freeSlot_nonneg_erun (ops : List EOp) :
    ∀ s : EntityStore, 0 ≤ s.freeSlot → 0 ≤ (erun s ops).freeSlot := by
  induction ops with
  | nil => intro s h; exact h
  | cons op rest ih =>
    intro s h
    exact ih (estep s op) (freeSlot_nonneg_estep s op h)

/-- Version monotonicity: as long as nothing wraps the version of slot
`i`, the stored version never decreases along a trace. -/
theorem slotVer_mono (i : Nat) (ops : List EOp) :
    ∀ s : EntityStore, i < s.appendIndex → NoWrapAt i s ops →
      slotVer s i ≤ slotVer (erun s ops) i := by
  induction ops with
  | nil => intro s _ _; exact Nat.le_refl _
  | cons op rest ih =>
    intro s hi hnw
    obtain ⟨hhead, htail⟩ := hnw
    have hstep : slotVer s i ≤ slotVer (estep s op) i := by
      rcases slotVer_estep s op i hi with h | h
      · rw [h]
      · rcases hhead with h' | h'
        · rw [h']
        · rw [h, Nat.mod_eq_of_lt h']
          exact Nat.le_succ _
    exact Nat.le_trans hstep (ih (estep s op) (Nat.lt_of_lt_of_le hi (estep_append_le s op)) htail)

theorem hindex_hmake_nat_lt (hb : HandleBits) (i : Nat) (v : Int)
    (hi : i < 2 ^ hb.indexBits) : hindex hb (hmake hb (i : Int) v) = i := by
  rw [hindex_hmake_int]
  have h2p := int_two_pow_cast hb.indexBits
  have hmod : ((i : Int) % (2 : Int) ^ hb.indexBits) = (i : Int) :=
    Int.emod_eq_of_lt (by omega) (by omega)
  rw [hmod, Int.toNat_natCast]

namespace EntityStore

/-- Where a successful `create` issues its handle: at the popped free
slot carrying that slot's stored version, or (only with an empty free
list) at `appendIndex` masked to the index width with version 0. -/
theorem create_issue (s : EntityStore) (s' : EntityStore) (h : Nat) (hinv : FsInv s)
    (hc : s.create = Except.ok (s', h)) :
    (s.freeSlot ≠ -1 ∧ hindex s.hb h = s.freeSlot.toNat ∧
      hversion s.hb h = slotVer s s.freeSlot.toNat) ∨
    (s.freeSlot = -1 ∧ hindex s.hb h = s.appendIndex % 2 ^ s.hb.indexBits ∧
      hversion s.hb h = 0) := by
  obtain ⟨h1, h2⟩ := hinv
  have hp := int_two_pow_cast s.hb.indexBits
  by_cases hfs : s.freeSlot ≠ -1
  · left
    have hpop := create_ok_pop s hfs
    rw [hc] at hpop
    simp only [Except.ok.injEq, Prod.mk.injEq] at hpop
    have hh : h = hmake s.hb (s.freeSlot.toNat : Int)
        (hversion s.hb (s.entities.getD s.freeSlot.toNat 0) : Int) := hpop.2
    refine ⟨hfs, ?_, ?_⟩
    · rw [hh, hindex_hmake_nat_lt _ _ _ (by omega)]
    · rw [hh, hversion_hmake_of_lt _ _ _ (hversion_lt_two_pow _ _)]
      rfl
  · have hfs' : s.freeSlot = -1 := by omega
    right
    have hooh : ¬oohFires s.hb s.appendIndex := by
      intro hcon
      unfold create at hc
      rw [if_neg (by simp [hfs']), if_pos hcon] at hc
      cases hc
    have hh : h = hmake s.hb (s.appendIndex : Int) 0 := by
      by_cases hcap : (s.appendIndex : Int) = (s.cap : Int) - 1
      · cases hrz : s.resizable with
        | false =>
          exfalso
          unfold create at hc
          rw [if_neg (by simp [hfs']), if_neg hooh, if_pos hcap, hrz] at hc
          simp at hc
        | true =>
          have hg := create_ok_grow s hfs' hooh hcap hrz
          rw [hc] at hg
          simp only [Except.ok.injEq, Prod.mk.injEq] at hg
          exact hg.2
      · have ha := create_append_ok s hfs' hooh hcap
        rw [hc] at ha
        simp only [Except.ok.injEq, Prod.mk.injEq] at ha
        exact ha.2
    refine ⟨hfs', ?_, ?_⟩
    · rw [hh, hindex_hmake_int, natCast_emod_two_pow_toNat]
    · rw [hh, hversion_hmake_int, Int.zero_emod]
      rfl

/-- The mutation of a successful `remove`. -/
theorem remove_ok_shape (s : EntityStore) (e : Nat) (halive : s.isAlive e = true) :
    s.remove e = Except.ok { s with
      entities := s.entities.set (hindex s.hb e)
        (hmake s.hb s.freeSlot ((hversion s.hb e : Int) + 1)),
      freeSlot := ((hindex s.hb e : Nat) : Int) } := by
  unfold remove
  rw [if_neg (by simp [halive])]

/-- A successful `remove` is exactly the `estep` of that call. -/
theorem estep_of_remove_ok (s s' : EntityStore) (e : Nat)
    (hr : s.remove e = Except.ok s') : estep s (EOp.remove e) = s' := by
  show (match s.remove e with | .ok t => t | .error _ => s) = s'
  rw [hr]

end EntityStore

/-- Two is at most any positive power of two. -/
theorem two_le_two_pow (b : Nat) (hb : 0 < b) : 2 ≤ 2 ^ b := by
  calc 2 = 2 ^ 1 := rfl
    _ ≤ 2 ^ b := Nat.pow_le_pow_right (by norm_num) hb

theorem succ_mod_ne (v m : Nat) (hm : 2 ≤ m) (hv : v < m) : (v + 1) % m ≠ v := by
  rcases Nat.lt_or_ge (v + 1) m with h | h
  · rw [Nat.mod_eq_of_lt h]
    omega
  · have hvm : v + 1 = m := by omega
    rw [hvm, Nat.mod_self]
    omega

theorem hversion_hmake_one (hb : HandleBits) (hvb : 0 < hb.versionBits) (f : Int) :
    hversion hb (hmake hb f 1) = 1 := by
  rw [hversion_hmake_int, Int.emod_eq_of_lt (by omega)]
  · rfl
  · have := two_le_two_pow hb.versionBits hvb
    have hc := int_two_pow_cast hb.versionBits
    omega

namespace EntityStore

/-- What a successful `remove` of a live entity does: the handle is
dead afterwards and the slot's stored version field is bumped by one
modulo the version width. -/
theorem remove_not_alive (s : EntityStore) (e : Nat) (hvb : 0 < s.hb.versionBits)
    (halive : s.isAlive e = true) (hlen : hindex s.hb e < s.entities.length)
    (s₁ : EntityStore) (hr : s.remove e = Except.ok s₁) :
    s₁.isAlive e = false ∧
    slotVer s₁ (hindex s.hb e) = (hversion s.hb e + 1) % 2 ^ s.hb.versionBits ∧
    s₁.appendIndex = s.appendIndex ∧ s₁.hb = s.hb ∧ s₁.freeSlot = ((hindex s.hb e : Nat) : Int) := by
  have hshape := remove_ok_shape s e halive
  rw [hr] at hshape
  simp only [Except.ok.injEq] at hshape
  subst hshape
  have h2m := two_le_two_pow s.hb.versionBits hvb
  have hcast : (hversion s.hb e : Int) + 1 = ((hversion s.hb e + 1 : Nat) : Int) := by
    push_cast
    ring
  have hnewver : hversion s.hb (hmake s.hb s.freeSlot ((hversion s.hb e : Int) + 1)) =
      (hversion s.hb e + 1) % 2 ^ s.hb.versionBits := by
    rw [hversion_hmake_int, hcast, natCast_emod_two_pow_toNat]
  refine ⟨?_, ?_, rfl, rfl, rfl⟩
  · apply Bool.eq_false_iff.mpr
    intro hcon
    obtain ⟨_, hget⟩ := (isAlive_iff _ _).mp hcon
    dsimp only at hget
    rw [getD_set, if_pos ⟨rfl, hlen⟩] at hget
    have hvv := congrArg (hversion s.hb) hget
    rw [hnewver] at hvv
    exact succ_mod_ne _ _ h2m (hversion_lt_two_pow _ _) hvv
  · unfold slotVer
    dsimp only
    rw [getD_set, if_pos ⟨rfl, hlen⟩, hnewver]

end EntityStore

/-- The head of the free chain, as the store's `freeSlot` field. -/
def chainHead (L : List Nat) : Int :=
  match L with
  | [] => -1
  | l :: _ => (l : Int)

/-- The free chain left by a batch of removals: `L` lists the dead
slots head-first; every dead cell carries version 1, and each cell's
index field names the next dead slot. -/
def ChainP (hb : HandleBits) (ents : List Nat) : List Nat → Prop
  | [] => True
  | [l] => hversion hb (ents.getD l 0) = 1
  | l :: l' :: ls =>
    hversion hb (ents.getD l 0) = 1 ∧ hindex hb (ents.getD l 0) = l' ∧
      ChainP hb ents (l' :: ls)

theorem ChainP_congr (hb : HandleBits) (ents ents' : List Nat) :
    ∀ L : List Nat, (∀ l ∈ L, ents'.getD l 0 = ents.getD l 0) →
      ChainP hb ents L → ChainP hb ents' L := by
  intro L
  induction L with
  | nil =>
    intro _ _
    trivial
  | cons l ls ih =>
    cases ls with
    | nil =>
      intro hsame hch
      show hversion hb (ents'.getD l 0) = 1
      rw [hsame l (by simp)]
      exact hch
    | cons l' ls' =>
      intro hsame hch
      obtain ⟨ha, hnext, hc⟩ := hch
      refine ⟨?_, ?_, ih (fun x hx => hsame x (by simp [hx])) hc⟩
      · rw [hsame l (by simp)]
        exact ha
      · rw [hsame l (by simp)]
        exact hnext

/-- Invariant through the removal phase of the N/N recycling
scenario: `removed` lists the dead slots head-first, the other slots
below `N` still hold their fresh version-0 handles. -/
def Phase2Inv (hb : HandleBits) (N : Nat) (removed : List Nat) (s : EntityStore) : Prop :=
  s.hb = hb ∧ s.appendIndex = N ∧ N ≤ s.entities.length ∧
  removed.Nodup ∧ (∀ r ∈ removed, r < N) ∧
  (∀ i, i < N → i ∉ removed → s.entities.getD i 0 = hmake hb (i : Int) 0) ∧
  ChainP hb s.entities removed ∧ s.freeSlot = chainHead removed

theorem phase2_step (hb : HandleBits) (hvb : 0 < hb.versionBits) (N : Nat)
    (hN : N ≤ invalidIndex hb) (removed : List Nat) (s : EntityStore)
    (hinv : Phase2Inv hb N removed s) (l : Nat) (hl : l < N) (hmem : l ∉ removed) :
    ∃ s', s.remove (hmake hb (l : Int) 0) = Except.ok s' ∧
      Phase2Inv hb N (l :: removed) s' := by
  obtain ⟨hhb, happ, hlen, hnd, hbnd, hfresh, hch, hfs⟩ := hinv
  have hlib : l < 2 ^ hb.indexBits := by
    unfold invalidIndex at hN
    omega
  have hie : hindex hb (hmake hb (l : Int) 0) = l := hindex_hmake_nat_lt hb l 0 hlib
  have hve : hversion hb (hmake hb (l : Int) 0) = 0 := by
    rw [hversion_hmake_int, Int.zero_emod]
    rfl
  have halive : s.isAlive (hmake hb (l : Int) 0) = true := by
    rw [isAlive_iff, hhb, hie, happ]
    exact ⟨hl, hfresh l hl hmem⟩
  refine ⟨_, EntityStore.remove_ok_shape s _ halive, ?_⟩
  have hone : (hversion hb (hmake hb (l : Int) 0) : Int) + 1 = 1 := by
    rw [hve]
    rfl
  refine ⟨hhb, happ, by simpa using hlen, List.nodup_cons.mpr ⟨hmem, hnd⟩, ?_, ?_, ?_, ?_⟩
  · intro r hr
    rcases List.mem_cons.mp hr with h | h
    · omega
    · exact hbnd r h
  · intro i hi hni
    dsimp only
    rw [getD_set, if_neg ?_]
    · exact hfresh i hi (fun hcon => hni (List.mem_cons_of_mem _ hcon))
    · rw [hhb, hie]
      intro hcase
      exact hni (by rw [hcase.1]; exact List.mem_cons_self _ _)
  · show ChainP hb (s.entities.set (hindex s.hb (hmake hb (l : Int) 0))
      (hmake s.hb s.freeSlot ((hversion s.hb (hmake hb (l : Int) 0) : Int) + 1))) (l :: removed)
    rw [hhb, hie, hone]
    have hcell : (s.entities.set l (hmake hb s.freeSlot 1)).getD l 0 =
        hmake hb s.freeSlot 1 := by
      rw [getD_set, if_pos ⟨rfl, by omega⟩]
    cases removed with
    | nil =>
      show hversion hb ((s.entities.set l (hmake hb s.freeSlot 1)).getD l 0) = 1
      rw [hcell]
      exact hversion_hmake_one hb hvb _
    | cons r rest =>
      refine ⟨?_, ?_, ?_⟩
      · rw [hcell]
        exact hversion_hmake_one hb hvb _
      · rw [hcell, hfs]
        show hindex hb (hmake hb ((r : Nat) : Int) 1) = r
        exact hindex_hmake_nat_lt hb r 1 (by
          have := hbnd r (List.mem_cons_self _ _)
          unfold invalidIndex at hN
          omega)
      · refine ChainP_congr hb s.entities _ (r :: rest) ?_ hch
        intro x hx
        exact getD_set_ne _ _ _ _ _ (fun hcon => hmem (by rw [← hcon]; exact hx))
  · show ((hindex s.hb (hmake hb (l : Int) 0) : Nat) : Int) = chainHead (l :: removed)
    rw [hhb, hie]
    rfl

theorem phase2_run (hb : HandleBits) (hvb : 0 < hb.versionBits) (N : Nat)
    (hN : N ≤ invalidIndex hb) (σ : List Nat) :
    ∀ (removed : List Nat) (s : EntityStore), Phase2Inv hb N removed s → σ.Nodup →
      (∀ l ∈ σ, l < N) → (∀ l ∈ σ, l ∉ removed) →
      Phase2Inv hb N (σ.reverse ++ removed)
        (EntityStore.removeSeq s (σ.map (fun (x : Nat) => hmake hb (x : Int) 0))) := by
  induction σ with
  | nil =>
    intro removed s hinv _ _ _
    exact hinv
  | cons l ls ih =>
    intro removed s hinv hnd hbnd hdisj
    obtain ⟨s', hok, hinv'⟩ := phase2_step hb hvb N hN removed s hinv l
      (hbnd l (List.mem_cons_self _ _)) (hdisj l (List.mem_cons_self _ _))
    have hrun : EntityStore.removeSeq s (((l :: ls)).map (fun (x : Nat) => hmake hb (x : Int) 0)) =
        EntityStore.removeSeq s' (ls.map (fun (x : Nat) => hmake hb (x : Int) 0)) := by
      show (match s.remove (hmake hb (l : Int) 0) with
        | Except.ok t => EntityStore.removeSeq t (ls.map (fun (x : Nat) => hmake hb (x : Int) 0))
        | Except.error _ => s) = _
      rw [hok]
    rw [hrun]
    have := ih (l :: removed) s' hinv' (List.nodup_cons.mp hnd).2
      (fun x hx => hbnd x (List.mem_cons_of_mem _ hx))
      (fun x hx => by
        rw [List.mem_cons]
        push_neg
        exact ⟨fun hcon => (List.nodup_cons.mp hnd).1 (hcon ▸ hx),
          hdisj x (List.mem_cons_of_mem _ hx)⟩)
    have hgoal : (l :: ls).reverse ++ removed = ls.reverse ++ (l :: removed) := by
      rw [List.reverse_cons, List.append_assoc, List.singleton_append]
    rw [hgoal]
    exact this

theorem phase3_run (hb : HandleBits) (hvb : 0 < hb.versionBits) :
    ∀ (L : List Nat) (s : EntityStore), s.hb = hb → L.Nodup →
      (∀ l ∈ L, l < s.entities.length) → (∀ l ∈ L, l < 2 ^ hb.indexBits) →
      s.freeSlot = chainHead L → ChainP hb s.entities L →
      (EntityStore.createN s L.length).2 = L.map (fun (x : Nat) => hmake hb (x : Int) 1) := by
  intro L
  induction L with
  | nil =>
    intro s _ _ _ _ _ _
    rfl
  | cons l ls ih =>
    intro s hhb hnd hlen hbnd hfs hch
    have hfsne : s.freeSlot ≠ -1 := by
      rw [hfs]
      show ((l : Nat) : Int) ≠ -1
      omega
    have hpop := EntityStore.create_ok_pop s hfsne
    have htoNat : s.freeSlot.toNat = l := by
      rw [hfs]
      exact Int.toNat_natCast l
    have hver : hversion s.hb (s.entities.getD s.freeSlot.toNat 0) = 1 := by
      rw [htoNat, hhb]
      cases ls with
      | nil => exact hch
      | cons l' ls' => exact hch.1
    have hhandle : hmake s.hb (s.freeSlot.toNat : Int)
        (hversion s.hb (s.entities.getD s.freeSlot.toNat 0) : Int) = hmake hb (l : Int) 1 := by
      rw [hver, htoNat, hhb]
      norm_num
    have hrun : EntityStore.createN s (ls.length + 1) =
        ((EntityStore.createN { s with
            entities := s.entities.set s.freeSlot.toNat
              (hmake s.hb (s.freeSlot.toNat : Int)
                (hversion s.hb (s.entities.getD s.freeSlot.toNat 0) : Int)),
            freeSlot := ((hindex s.hb (s.entities.getD s.freeSlot.toNat 0) : Nat) : Int) }
          ls.length).1,
          hmake hb (l : Int) 1 ::
            (EntityStore.createN { s with
              entities := s.entities.set s.freeSlot.toNat
                (hmake s.hb (s.freeSlot.toNat : Int)
                  (hversion s.hb (s.entities.getD s.freeSlot.toNat 0) : Int)),
              freeSlot := ((hindex s.hb (s.entities.getD s.freeSlot.toNat 0) : Nat) : Int) }
            ls.length).2) := by
      rw [EntityStore.createN, hpop, hhandle]
    show (EntityStore.createN s (ls.length + 1)).2 =
      List.map (fun (x : Nat) => hmake hb (x : Int) 1) (l :: ls)
    rw [hrun, List.map_cons]
    dsimp only
    congr 1
    cases ls with
    | nil => rfl
    | cons l' ls' =>
      obtain ⟨hv1, hnext, hch'⟩ := hch
      apply ih
      · exact hhb
      · exact (List.nodup_cons.mp hnd).2
      · intro x hx
        dsimp only
        rw [List.length_set]
        exact hlen x (List.mem_cons_of_mem _ hx)
      · intro x hx
        exact hbnd x (List.mem_cons_of_mem _ hx)
      · show ((hindex s.hb (s.entities.getD s.freeSlot.toNat 0) : Nat) : Int) = chainHead (l' :: ls')
        rw [htoNat, hhb, hnext]
        rfl
      · dsimp only
        refine ChainP_congr hb s.entities _ (l' :: ls') ?_ hch'
        intro x hx
        rw [htoNat]
        exact getD_set_ne _ _ _ _ _ (fun hcon => (List.nodup_cons.mp hnd).1 (hcon ▸ hx))

/-- C3 (amended): after `remove(e)` the entity is dead and the slot's
stored version is bumped by one MODULO the version-field width (the
counterexample `c3_counterexample` shows the unamended claim false:
versions wrap).  Every subsequent `create()` that issues a handle at
`e`'s slot returns a strictly greater version PROVIDED neither the
removal of `e` nor any later recycling of that slot wraps the version
field.  The N-create / remove-all (any order) / N-create cycle reuses
every slot with the version incremented by one — no wrap is possible
there because all versions go from 0 to 1. -/
theorem c3_version_recycling :
    (∀ (s : EntityStore) (e : Nat) (s₁ : EntityStore),
      0 < s.hb.versionBits → s.isAlive e = true →
      hindex s.hb e < s.entities.length → s.remove e = Except.ok s₁ →
      s₁.isAlive e = false ∧
      slotVer s₁ (hindex s.hb e) = (hversion s.hb e + 1) % 2 ^ s.hb.versionBits) ∧
    (∀ (s : EntityStore) (e : Nat) (s₁ : EntityStore),
      0 < s.hb.versionBits → EInv s → s.isAlive e = true →
      hindex s.hb e < s.entities.length →
      hversion s.hb e + 1 < 2 ^ s.hb.versionBits →
      s.remove e = Except.ok s₁ →
      ∀ ops : List EOp, NoWrapAt (hindex s.hb e) s₁ ops →
      ∀ (s₃ : EntityStore) (h : Nat),
        (erun s₁ ops).create = Except.ok (s₃, h) →
        hindex s.hb h = hindex s.hb e →
        hversion s.hb e < hversion s.hb h) ∧
    (∀ (hb : HandleBits) (C N : Nat) (σ : List Nat),
      0 < hb.versionBits → N + 1 ≤ C → N ≤ invalidIndex hb →
      σ.Nodup → (∀ l ∈ σ, l < N) → σ.length = N →
      (EntityStore.createN
          (EntityStore.removeSeq (EntityStore.createN (EntityStore.mk0 hb C false) N).1
            (σ.map (fun (x : Nat) => hmake hb (x : Int) 0))) N).2 =
        σ.reverse.map (fun (x : Nat) => hmake hb (x : Int) 1) ∧
      ((EntityStore.createN
          (EntityStore.removeSeq (EntityStore.createN (EntityStore.mk0 hb C false) N).1
            (σ.map (fun (x : Nat) => hmake hb (x : Int) 0))) N).2.map (hindex hb)).Perm
        (List.range N)) := by
  refine ⟨?_, ?_, ?_⟩
  · intro s e s₁ hvb halive hlen hr
    have := EntityStore.remove_not_alive s e hvb halive hlen s₁ hr
    exact ⟨this.1, this.2.1⟩
  · intro s e s₁ hvb hinv halive hlen hwrap hr ops hnw s₃ h hc hidx
    obtain ⟨hdead, hver, happ₁, hhb₁, hfs₁⟩ :=
      EntityStore.remove_not_alive s e hvb halive hlen s₁ hr
    have hi₁ : hindex s.hb e < s₁.appendIndex := by
      rw [happ₁]
      exact ((isAlive_iff s e).mp halive).1
    have hinv₁ : FsInv s₁ := by
      constructor
      · rw [hfs₁]
        omega
      · rw [hfs₁, hhb₁]
        have hib := hindex_lt_two_pow s.hb e
        have hp := int_two_pow_cast s.hb.indexBits
        omega
    have hnn₁ : 0 ≤ s₁.freeSlot := by
      rw [hfs₁]
      omega
    have hmono := slotVer_mono (hindex s.hb e) ops s₁ hi₁ hnw
    have hver₁ : slotVer s₁ (hindex s.hb e) = hversion s.hb e + 1 := by
      rw [hver, Nat.mod_eq_of_lt hwrap]
    have hhb₂ : (erun s₁ ops).hb = s.hb := by
      rw [erun_hb, hhb₁]
    have hinv₂ : FsInv (erun s₁ ops) := FsInv_erun ops s₁ hinv₁
    have hnn₂ : 0 ≤ (erun s₁ ops).freeSlot := freeSlot_nonneg_erun ops s₁ hnn₁
    rcases EntityStore.create_issue (erun s₁ ops) s₃ h hinv₂ hc with
      ⟨hfs, hih, hvh⟩ | ⟨hfs, _, _⟩
    · rw [hhb₂] at hih hvh
      have hslot : (erun s₁ ops).freeSlot.toNat = hindex s.hb e := by
        rw [← hih, hidx]
      rw [hvh, hslot]
      calc hversion s.hb e < hversion s.hb e + 1 := Nat.lt_succ_self _
        _ = slotVer s₁ (hindex s.hb e) := hver₁.symm
        _ ≤ slotVer (erun s₁ ops) (hindex s.hb e) := hmono
    · exfalso
      rw [hfs] at hnn₂
      omega
  · intro hb C N σ hvb hNC hNinv hnd hbnd hlenN
    have hmkapp : (EntityStore.mk0 hb C false).appendIndex = 0 := rfl
    have hmkcap : (EntityStore.mk0 hb C false).cap = C := rfl
    have hmkhb : (EntityStore.mk0 hb C false).hb = hb := rfl
    obtain ⟨i1, i2, i3, i4, i5, i6, i7, i8, i9⟩ :=
      EntityStore.createN_spec N (EntityStore.mk0 hb C false) rfl rfl
        (by simp [EntityStore.mk0]) (by rw [hmkapp, hmkcap]; omega)
        (by rw [hmkapp, hmkhb]; omega)
    have hP2 : Phase2Inv hb N []
        (EntityStore.createN (EntityStore.mk0 hb C false) N).1 := by
      refine ⟨by rw [i1, hmkhb], by rw [i5, hmkapp, Nat.zero_add], ?_, by simp, ?_, ?_, trivial, ?_⟩
      · rw [i6, hmkcap]
        omega
      · intro r hr
        cases hr
      · intro i hi _
        have h9 := i9 i hi
        rw [hmkapp, hmkhb, Nat.zero_add] at h9
        exact h9
      · rw [i4]
        rfl
    have hP2' := phase2_run hb hvb N hNinv σ []
      (EntityStore.createN (EntityStore.mk0 hb C false) N).1 hP2 hnd hbnd
      (fun x _ => List.not_mem_nil x)
    rw [List.append_nil] at hP2'
    obtain ⟨phb, papp, plen, pnd, pbnd, pfresh, pch, pfs⟩ := hP2'
    have hrevlen : σ.reverse.length = N := by
      rw [List.length_reverse, hlenN]
    have h3 := phase3_run hb hvb σ.reverse
      (EntityStore.removeSeq (EntityStore.createN (EntityStore.mk0 hb C false) N).1
        (σ.map (fun (x : Nat) => hmake hb (x : Int) 0)))
      phb pnd
      (fun x hx => by
        have := pbnd x hx
        omega)
      (fun x hx => by
        have := pbnd x hx
        unfold invalidIndex at hNinv
        omega)
      pfs pch
    rw [hrevlen] at h3
    refine ⟨h3, ?_⟩
    rw [h3, List.map_map]
    have hmapid : σ.reverse.map (hindex hb ∘ fun (x : Nat) => hmake hb (x : Int) 1) =
        σ.reverse.map (fun x => x) := by
      apply List.map_congr_left
      intro x hx
      show hindex hb (hmake hb (x : Int) 1) = x
      apply hindex_hmake_nat_lt
      have := pbnd x hx
      unfold invalidIndex at hNinv
      omega
    rw [hmapid, List.map_id']
    have hsub : σ.Subperm (List.range N) := by
      apply List.Nodup.subperm hnd
      intro x hx
      exact List.mem_range.mpr (hbnd x hx)
    have hperm : σ.Perm (List.range N) :=
      hsub.perm_of_length_le (by rw [List.length_range, hlenN])
    exact (List.reverse_perm σ).trans hperm

/-- C5 counterexample: a non-resizable store with capacity 2 and an
empty free list accepts only ONE `create()` — the second call (with
`appendIndex = 1 = cap - 1`, one empty slot still available) throws
`CapacityExceeded`, contradicting the claim that each of the first
`C` calls succeeds and that failure requires `appendIndex` to exceed
`cap`. -/
theorem c5_counterexample :
    ((EntityStore.mk0 handleMedium 2 false).createN 2).2.length = 1 ∧
    ((EntityStore.mk0 handleMedium 2 false).createN 1).1.appendIndex = 1 ∧
    ((EntityStore.mk0 handleMedium 2 false).createN 1).1.create =
      Except.error CreateErr.capacityExceeded := by decide

/-- C5 (amended): on a non-resizable store of capacity `C` with an
empty free list, only the first `C - 1` calls to `create()` succeed,
filling slots `0 .. C-2`; the `C`-th call fails with
`CapacityExceeded` — one call before the capacity would actually be
exceeded, so the last slot is never used.  In general (empty free
list): `create` fails with `OutOfHandles` iff the sentinel comparison
fires (`oohFires`: a codec of total width ≤ 32 with `indexBits ≤ 30`,
at `appendIndex = INVALID_INDEX`) — so OutOfHandles arises ONLY at
`appendIndex = INVALID_INDEX` and never on codecs wider than 32 bits
or with `indexBits = 31`, whose sentinel comparison is dead
(`Number === BigInt`, resp. a negative sentinel); and (non-resizable)
`CapacityExceeded` iff the sentinel check did not fire and
`appendIndex = cap - 1`. -/
theorem c5_capacity_offbyone (hb : HandleBits) (C : Nat)
    (hC1 : 1 ≤ C) (hCinv : C ≤ invalidIndex hb) :
    (EntityStore.createN (EntityStore.mk0 hb C false) (C - 1)).2 =
        (List.range (C - 1)).map (fun (j : Nat) => hmake hb (j : Int) 0) ∧
    (∀ j, j < C - 1 →
      (EntityStore.createN (EntityStore.mk0 hb C false) (C - 1)).1.entities.getD j 0 =
        hmake hb (j : Int) 0) ∧
    (EntityStore.createN (EntityStore.mk0 hb C false) (C - 1)).1.create =
        Except.error CreateErr.capacityExceeded ∧
    (∀ s : EntityStore, s.freeSlot = -1 →
      (s.create = Except.error CreateErr.outOfHandles ↔
        oohFires s.hb s.appendIndex) ∧
      (s.create = Except.error CreateErr.outOfHandles →
        s.appendIndex = invalidIndex s.hb) ∧
      (32 < s.hb.indexBits + s.hb.versionBits ∨ 30 < s.hb.indexBits →
        ¬s.create = Except.error CreateErr.outOfHandles) ∧
      (s.resizable = false →
        (s.create = Except.error CreateErr.capacityExceeded ↔
          ¬oohFires s.hb s.appendIndex ∧ (s.appendIndex : Int) = (s.cap : Int) - 1))) := by
  have hspec := EntityStore.createN_spec (C - 1) (EntityStore.mk0 hb C false)
    rfl rfl (by simp [EntityStore.mk0]) (by simp [EntityStore.mk0]; omega)
    (by simp [EntityStore.mk0]; omega)
  obtain ⟨i1, i2, i3, i4, i5, i6, i7, i8, i9⟩ := hspec
  refine ⟨?_, ?_, ?_, ?_⟩
  · rw [i7]
    apply List.map_congr_left
    intro j _
    show hmake (EntityStore.mk0 hb C false).hb
      (((EntityStore.mk0 hb C false).appendIndex + j : Nat) : Int) 0 = hmake hb (j : Int) 0
    rw [show (EntityStore.mk0 hb C false).hb = hb from rfl,
      show ((EntityStore.mk0 hb C false).appendIndex + j : Nat) = j from by
        simp [EntityStore.mk0]]
  · intro j hj
    have := i9 j (by simpa [EntityStore.mk0] using hj)
    simpa [EntityStore.mk0] using this
  · have hchar := EntityStore.create_char
      (EntityStore.createN (EntityStore.mk0 hb C false) (C - 1)).1 i4
    refine (hchar.2 i3).mpr ⟨?_, ?_⟩
    · intro hcon
      have h3 := hcon.2.2
      rw [i5, i1] at h3
      simp only [EntityStore.mk0] at h3
      omega
    · rw [i5, i2]
      show (((EntityStore.mk0 hb C false).appendIndex + (C - 1) : Nat) : Int) =
        (((EntityStore.mk0 hb C false).cap : Nat) : Int) - 1
      simp only [EntityStore.mk0]
      omega
  · intro s hfs
    have hchar := EntityStore.create_char s hfs
    refine ⟨hchar.1, ?_, ?_, hchar.2⟩
    · intro h
      exact (hchar.1.mp h).2.2
    · intro hbig h
      obtain ⟨w1, w2, w3⟩ := hchar.1.mp h
      rcases hbig with hb1 | hb2
      · omega
      · omega

/-- Witness for C5 at the Medium codec with capacity 3: the two first
creates succeed (slots 0 and 1), the third fails with
`CapacityExceeded`. -/
theorem c5_capacity_offbyone_witness :
    (1 ≤ 3 ∧ 3 ≤ invalidIndex handleMedium) ∧
    ((EntityStore.createN (EntityStore.mk0 handleMedium 3 false) 2).2 =
        (List.range 2).map (fun (j : Nat) => hmake handleMedium (j : Int) 0) ∧
      (∀ j, j < 2 →
        (EntityStore.createN (EntityStore.mk0 handleMedium 3 false) 2).1.entities.getD j 0 =
          hmake handleMedium (j : Int) 0) ∧
      (EntityStore.createN (EntityStore.mk0 handleMedium 3 false) 2).1.create =
          Except.error CreateErr.capacityExceeded ∧
      (∀ s : EntityStore, s.freeSlot = -1 →
        (s.create = Except.error CreateErr.outOfHandles ↔
          oohFires s.hb s.appendIndex) ∧
        (s.create = Except.error CreateErr.outOfHandles →
          s.appendIndex = invalidIndex s.hb) ∧
        (32 < s.hb.indexBits + s.hb.versionBits ∨ 30 < s.hb.indexBits →
          ¬s.create = Except.error CreateErr.outOfHandles) ∧
        (s.resizable = false →
          (s.create = Except.error CreateErr.capacityExceeded ↔
            ¬oohFires s.hb s.appendIndex ∧
              (s.appendIndex : Int) = (s.cap : Int) - 1)))) :=
  ⟨⟨by decide, by decide⟩, c5_capacity_offbyone handleMedium 3 (by decide) (by decide)⟩

/-! ### Registry: destroy/removeAll machinery -/

/-- `ComponentStore.remove` of a contained entity (either kind) on a
well-formed set: success with status 0, the entity no longer
contained, the length down by one. -/
theorem ComponentStore.remove_shrinks {α : Type} (cs : ComponentStore α) (e : Nat)
    (hwf : cs.set.WF) (hc : cs.contains e = true) :
    ∃ cs', cs.remove e = some (cs', 0) ∧ cs'.contains e = false ∧
      cs'.len = cs.len - 1 := by
  obtain ⟨s', hrun, hlen, hdlen, hps, hhb, hother, hmoved, hnc, hredir⟩ :=
    SparseSet.remove_spec cs.set hwf e hc
  obtain ⟨v, hcv, hvt, hvl⟩ := (SparseSet.contains_iff cs.set e).mp hc
  have hne : ¬(cs.set.index e = -1) := by
    rw [SparseSet.index_eq cs.set e v hcv hvt hvl]
    exact hvt
  cases hemp : cs.isEmptyComp with
  | true =>
    refine ⟨{ cs with set := s' }, ?_, hnc, hlen⟩
    unfold ComponentStore.remove
    dsimp only
    rw [if_neg hne, if_pos hemp]
    rw [hrun]
  | false =>
    have hemp' : ¬(cs.isEmptyComp = true) := by
      rw [hemp]
      exact Bool.false_ne_true
    refine ⟨{ cs with
        components := jsSetAny
          (if ¬(cs.set.len - 1 = (cs.set.index e).toNat) then
            jsSetAny cs.components (cs.set.index e).toNat
              (jsGet cs.components (cs.set.len - 1))
          else cs.components) (cs.set.len - 1) none,
        set := s' }, ?_, hnc, hlen⟩
    unfold ComponentStore.remove
    dsimp only
    rw [if_neg hne, if_neg hemp']
    dsimp only
    rw [hrun]

/-- One `removeAll` iteration on a well-formed entry: key kept, the
entity no longer contained, the length down by one exactly when the
store contained it. -/
theorem Registry.removeAllStep_spec {α : Type} (e k : Nat) (cs : ComponentStore α)
    (hwf : cs.set.WF) :
    ∃ cs', Registry.removeAllStep e (k, cs) = some (k, cs') ∧ cs'.contains e = false ∧
      cs'.len = (if cs.contains e then cs.len - 1 else cs.len) := by
  unfold Registry.removeAllStep
  by_cases hc : cs.contains e = true
  · obtain ⟨cs', heq, hnc, hlen⟩ := ComponentStore.remove_shrinks cs e hwf hc
    refine ⟨cs', ?_, hnc, ?_⟩
    · dsimp only
      rw [if_pos hc, heq]
      rfl
    · rw [if_pos hc, hlen]
  · have hc' : cs.contains e = false := by
      cases h : cs.contains e
      · rfl
      · exact absurd h hc
    refine ⟨cs, ?_, hc', ?_⟩
    · dsimp only
      rw [if_neg hc]
    · rw [if_neg hc]

/-- The `removeAll` loop over well-formed stores: never throws, keeps
the keys (lookups by key still resolve, absent keys stay absent), no
resulting store contains the entity, and each store's length drops by
one exactly when it contained the entity. -/
theorem Registry.removeAllStores_spec {α : Type} (e : Nat)
    (stores : List (Nat × ComponentStore α)) (hwf : ∀ p ∈ stores, p.2.set.WF) :
    ∃ stores', Registry.removeAllStores e stores = some stores' ∧
      (∀ c : Nat, stores.find? (fun p => p.1 = c) = none →
        stores'.find? (fun p => p.1 = c) = none) ∧
      (∀ (c : Nat) (p : Nat × ComponentStore α),
        stores.find? (fun q => q.1 = c) = some p →
        ∃ q, stores'.find? (fun q' => q'.1 = c) = some q ∧ q.1 = p.1 ∧
          q.2.contains e = false ∧
          q.2.len = (if p.2.contains e then p.2.len - 1 else p.2.len)) := by
  induction stores with
  | nil =>
    refine ⟨[], rfl, fun c _ => rfl, fun c p h => ?_⟩
    cases h
  | cons hd tl ih =>
    obtain ⟨k, cs⟩ := hd
    obtain ⟨cs', hstep, hnc, hlen⟩ :=
      Registry.removeAllStep_spec e k cs (hwf (k, cs) (List.mem_cons_self _ _))
    obtain ⟨tl', htl, hnone, hsome⟩ := ih (fun p hp => hwf p (List.mem_cons_of_mem _ hp))
    refine ⟨(k, cs') :: tl', ?_, ?_, ?_⟩
    · unfold Registry.removeAllStores
      rw [hstep, htl]
    · intro c hc
      by_cases hk : k = c
      · rw [List.find?_cons_of_pos _ (by simp [hk])] at hc
        cases hc
      · rw [List.find?_cons_of_neg _ (by simp [hk])] at hc
        rw [List.find?_cons_of_neg _ (by simp [hk])]
        exact hnone c hc
    · intro c p hp
      by_cases hk : k = c
      · rw [List.find?_cons_of_pos _ (by simp [hk])] at hp
        have hpe : p = (k, cs) := by
          injection hp with h1
          exact h1.symm
        subst hpe
        refine ⟨(k, cs'), ?_, rfl, hnc, hlen⟩
        rw [List.find?_cons_of_pos _ (by simp [hk])]
      · rw [List.find?_cons_of_neg _ (by simp [hk])] at hp
        obtain ⟨q, hq, hq1, hq2, hq3⟩ := hsome c p hp
        refine ⟨q, ?_, hq1, hq2, hq3⟩
        rw [List.find?_cons_of_neg _ (by simp [hk])]
        exact hq

/-- `index(e) = -1` whenever `contains(e)` is false (the two read the
same cell under the same test). -/
theorem SparseSet.index_of_not_contains (s : SparseSet) (e : Nat)
    (h : s.contains e = false) : s.index e = -1 := by
  unfold SparseSet.contains at h
  unfold SparseSet.index
  cases hcv : s.cellVal e with
  | none => rfl
  | some v =>
    rw [hcv] at h
    dsimp only at h ⊢
    simp only [decide_eq_false_iff_not] at h
    rw [if_neg h]

/-- Sparse-set reads are functions of the decoded index field alone:
two entity IDs with equal index fields are indistinguishable to
`contains` and `index`. -/
theorem SparseSet.contains_hindex_congr (s : SparseSet) (a b : Nat)
    (h : hindex s.hb a = hindex s.hb b) :
    s.contains a = s.contains b ∧ s.index a = s.index b := by
  have hcv : s.cellVal a = s.cellVal b := by
    unfold SparseSet.cellVal SparseSet.cellAt SparseSet.pageIndexOf SparseSet.pageOffsetOf
    rw [h]
  constructor
  · unfold SparseSet.contains
    rw [hcv]
  · unfold SparseSet.index
    rw [hcv]

/-- C7: `destroy` of a non-live entity is a silent no-op (returns with
no state change and no throw); `destroy` of a live entity first purges
it from every registered component store — each store's `len` drops by
one exactly when it contained the entity, afterwards no store contains
it, unregistered types stay unregistered — and then frees the entity
slot, so `valid` becomes false.  Every other liveness-guarded
operation (`add`, `replace`, `remove`, `removeIfExist`, `removeAll`,
`has`, `get`, `getConst`) instead throws on a non-live entity.  The
live case assumes the store sanity the constructor establishes:
a positive version width, slots backing every issued index, and
well-formed sparse sets. -/
theorem c7_destroy_purges_and_is_sole_noop {α : Type} :
    (∀ (r : Registry α) (e : Nat), r.valid e = false → r.destroy e = some r) ∧
    (∀ (r : Registry α) (e : Nat), r.valid e = true →
      0 < r.entities.hb.versionBits →
      r.entities.appendIndex ≤ r.entities.entities.length →
      (∀ p ∈ r.components, p.2.set.WF) →
      ∃ r', r.destroy e = some r' ∧
        r'.valid e = false ∧
        (∀ c : Nat, r.getStore c = none → r'.getStore c = none) ∧
        (∀ (c : Nat) (cs : ComponentStore α), r.getStore c = some cs →
          ∃ cs', r'.getStore c = some cs' ∧ cs'.contains e = false ∧
            cs'.len = (if cs.contains e then cs.len - 1 else cs.len))) ∧
    (∀ (r : Registry α) (e c : Nat) (fresh : ComponentStore α) (p : α)
        (rf zf : Bool), r.valid e = false →
      isErr (r.add e c fresh p rf zf) = true ∧
      isErr (r.replace e c p) = true ∧
      isErr (r.remove e c) = true ∧
      isErr (r.removeIfExist e c) = true ∧
      isErr (r.removeAll e) = true ∧
      isErr (r.has e c) = true ∧
      isErr (r.get e c) = true ∧
      isErr (r.getConst e c) = true) := by
  refine ⟨?_, ?_, ?_⟩
  · intro r e hv
    unfold Registry.destroy
    rw [if_pos (by rw [hv]; exact Bool.false_ne_true)]
  · intro r e hv hvb happ hwf
    have halive : r.entities.isAlive e = true := hv
    obtain ⟨stores', hstores, hnone, hsome⟩ :=
      Registry.removeAllStores_spec e r.components hwf
    have hra : r.removeAll e = Except.ok (some { r with components := stores' }) := by
      unfold Registry.removeAll
      rw [if_neg (not_not_intro halive), hstores]
      rfl
    have hrm : ∃ es, r.entities.remove e = Except.ok es := by
      unfold EntityStore.remove
      rw [if_neg (not_not_intro halive)]
      exact ⟨_, rfl⟩
    obtain ⟨es, hrm⟩ := hrm
    have hlen : hindex r.entities.hb e < r.entities.entities.length :=
      lt_of_lt_of_le ((isAlive_iff _ _).mp halive).1 happ
    refine ⟨{ r with components := stores', entities := es }, ?_, ?_, ?_, ?_⟩
    · unfold Registry.destroy
      rw [if_neg (not_not_intro hv), hra]
      dsimp only
      rw [hrm]
    · exact (EntityStore.remove_not_alive r.entities e hvb halive hlen es hrm).1
    · intro c hc
      have hfind : r.components.find? (fun p => p.1 = c) = none := by
        unfold Registry.getStore at hc
        cases h : r.components.find? (fun p => p.1 = c) with
        | none => rfl
        | some p =>
          rw [h] at hc
          cases hc
      show (stores'.find? (fun p => p.1 = c)).map (fun p => p.2) = none
      rw [hnone c hfind]
      rfl
    · intro c cs hc
      have hfind : ∃ p, r.components.find? (fun q => q.1 = c) = some p ∧ p.2 = cs := by
        unfold Registry.getStore at hc
        cases h : r.components.find? (fun q => q.1 = c) with
        | none =>
          rw [h] at hc
          cases hc
        | some p =>
          rw [h] at hc
          simp only [Option.map_some', Option.some.injEq] at hc
          exact ⟨p, rfl, hc⟩
      obtain ⟨p, hfind, hp2⟩ := hfind
      obtain ⟨q, hq, hq1, hq2, hq3⟩ := hsome c p hfind
      refine ⟨q.2, ?_, hq2, ?_⟩
      · show (stores'.find? (fun q' => q'.1 = c)).map (fun q' => q'.2) = some q.2
        rw [hq]
        rfl
      · rw [hq3, hp2]
  · intro r e c fresh p rf zf hv
    have h : ¬(r.entities.isAlive e = true) := by
      have h' : r.entities.isAlive e = false := hv
      rw [h']
      exact Bool.false_ne_true
    refine ⟨?_, ?_, ?_, ?_, ?_, ?_, ?_, ?_⟩
    · unfold Registry.add
      rw [if_pos h]
      rfl
    · unfold Registry.replace
      rw [if_pos h]
      rfl
    · unfold Registry.remove
      rw [if_pos h]
      rfl
    · unfold Registry.removeIfExist
      rw [if_pos h]
      rfl
    · unfold Registry.removeAll
      rw [if_pos h]
      rfl
    · unfold Registry.has
      rw [if_pos h]
      rfl
    · unfold Registry.get
      rw [if_pos h]
      rfl
    · unfold Registry.getConst
      rw [if_pos h]
      rfl

/-- A registry with no component type registered. -/
def c8EmptyReg : Registry Nat :=
  { entities := EntityStore.mk0 handleMedium 4 true, components := [] }

/-- C8 counterexample: with no store registered for a component type
(so in particular no empty-kind store for it), `tryGet` and
`tryGetConst` throw "no such component registerd" instead of
returning a null value — the claim allows a raise only for an
empty-kind store. -/
theorem c8_counterexample :
    c8EmptyReg.getStore 0 = none ∧
    c8EmptyReg.tryGet 12345 0 = Except.error "no such component registerd" ∧
    c8EmptyReg.tryGetConst 12345 0 = Except.error "no such component registerd" :=
  ⟨rfl, rfl, rfl⟩

/-- C8 (amended): `tryGet` and `tryGetConst` throw exactly for type
misuse — an unregistered component type, or a registered store of
empty kind; on a registered standard-kind store they never throw, and
return a null value whenever the entity has no component of the
type. -/
theorem c8_tryget_raises_only_for_type_misuse {α : Type} :
    (∀ (r : Registry α) (e c : Nat), r.getStore c = none →
      r.tryGet e c = Except.error "no such component registerd" ∧
      r.tryGetConst e c = Except.error "no such component registerd") ∧
    (∀ (r : Registry α) (e c : Nat) (cs : ComponentStore α), r.getStore c = some cs →
      (cs.isEmptyComp = true →
        isErr (r.tryGet e c) = true ∧ isErr (r.tryGetConst e c) = true) ∧
      (cs.isEmptyComp = false →
        (isErr (r.tryGet e c) = false ∧ isErr (r.tryGetConst e c) = false) ∧
        (cs.contains e = false →
          r.tryGet e c = Except.ok none ∧ r.tryGetConst e c = Except.ok none))) := by
  refine ⟨?_, ?_⟩
  · intro r e c hc
    constructor
    · unfold Registry.tryGet
      rw [hc]
    · unfold Registry.tryGetConst
      rw [hc]
  · intro r e c cs hc
    constructor
    · intro hemp
      constructor
      · unfold Registry.tryGet
        rw [hc]
        show isErr (cs.tryGet e) = true
        unfold ComponentStore.tryGet
        rw [if_pos hemp]
        rfl
      · unfold Registry.tryGetConst
        rw [hc]
        show isErr (cs.tryGetConst e) = true
        unfold ComponentStore.tryGetConst
        rw [if_pos hemp]
        rfl
    · intro hemp
      have hemp' : ¬(cs.isEmptyComp = true) := by
        rw [hemp]
        exact Bool.false_ne_true
      constructor
      · constructor
        · unfold Registry.tryGet
          rw [hc]
          show isErr (cs.tryGet e) = false
          unfold ComponentStore.tryGet
          rw [if_neg hemp']
          by_cases hidx : cs.set.index e = -1
          · rw [if_pos hidx]
            rfl
          · rw [if_neg hidx]
            rfl
        · unfold Registry.tryGetConst
          rw [hc]
          show isErr (cs.tryGetConst e) = false
          unfold ComponentStore.tryGetConst
          rw [if_neg hemp']
          by_cases hidx : cs.set.index e = -1
          · rw [if_pos hidx]
            rfl
          · rw [if_neg hidx]
            rfl
      · intro hnc
        have hidx : cs.set.index e = -1 :=
          SparseSet.index_of_not_contains cs.set e hnc
        constructor
        · unfold Registry.tryGet
          rw [hc]
          show cs.tryGet e = Except.ok none
          unfold ComponentStore.tryGet
          rw [if_neg hemp', if_pos hidx]
        · unfold Registry.tryGetConst
          rw [hc]
          show cs.tryGetConst e = Except.ok none
          unfold ComponentStore.tryGetConst
          rw [if_neg hemp', if_pos hidx]

/-! ### A recycled-slot scenario for stale-handle reads -/

/-- The standard store `prepare` would construct for the scenario. -/
def c10Fresh0 : ComponentStore Nat := ComponentStore.mk0 Nat false handleMedium 128 4

/-- Empty registry over the Medium codec, capacity 4. -/
def c10r0 : Registry Nat := { entities := EntityStore.mk0 handleMedium 4 true, components := [] }

/-- First create: issues the handle that will go stale. -/
def c10r1 : Registry Nat × Nat := c10r0.createU

/-- The handle that goes stale (slot 0, version 0). -/
def c10Stale : Nat := c10r1.2

/-- Attach payload 10 to it under component type 0. -/
def c10r2 : Registry Nat := c10r1.1.addV c10Stale 0 c10Fresh0 10

/-- Destroy it, freeing slot 0. -/
def c10r3 : Registry Nat := c10r2.destroyU c10Stale

/-- Create again: recycles slot 0 at version 1. -/
def c10r4 : Registry Nat × Nat := c10r3.createU

/-- The slot's new occupant (slot 0, version 1). -/
def c10Fresh : Nat := c10r4.2

/-- Attach payload 20 to the new occupant. -/
def c10Reg : Registry Nat := c10r4.1.addV c10Fresh 0 c10Fresh0 20

/-- C10: sparse-set membership is blind to the version field — two
entity IDs with equal decoded index fields get the same `contains` and
`index` answers in every sparse-set state; `Registry.tryGet` reads
nothing from the entity store (no liveness check) and cannot tell two
such IDs apart either; consequently, in the concrete recycled-slot
scenario, `tryGet` with the stale dead handle returns the payload of
the slot's new occupant (20) rather than null. -/
theorem c10_version_blind_membership {α : Type} :
    (∀ (s : SparseSet) (a b : Nat), hindex s.hb a = hindex s.hb b →
      s.contains a = s.contains b ∧ s.index a = s.index b) ∧
    (∀ (es es' : EntityStore) (comps : List (Nat × ComponentStore α)) (e c : Nat),
      Registry.tryGet ⟨es, comps⟩ e c = Registry.tryGet ⟨es', comps⟩ e c) ∧
    (∀ (r : Registry α) (e1 e2 c : Nat) (cs : ComponentStore α),
      r.getStore c = some cs → hindex cs.set.hb e1 = hindex cs.set.hb e2 →
      r.tryGet e1 c = r.tryGet e2 c) ∧
    (hindex handleMedium c10Stale = hindex handleMedium c10Fresh ∧
      c10Stale ≠ c10Fresh ∧
      c10Reg.valid c10Stale = false ∧
      c10Reg.valid c10Fresh = true ∧
      c10Reg.tryGet c10Stale 0 = Except.ok (some 20) ∧
      c10Reg.tryGet c10Fresh 0 = Except.ok (some 20)) := by
  refine ⟨?_, ?_, ?_, ?_⟩
  · intro s a b h
    exact SparseSet.contains_hindex_congr s a b h
  · intro es es' comps e c
    rfl
  · intro r e1 e2 c cs hc h
    have hidx := (SparseSet.contains_hindex_congr cs.set e1 e2 h).2
    unfold Registry.tryGet
    rw [hc]
    show cs.tryGet e1 = cs.tryGet e2
    unfold ComponentStore.tryGet
    rw [hidx]
  · exact ⟨by decide, by decide, by decide, by decide, by decide, by decide⟩

/-! ### SparseSet: swap specification -/

theorem jsSetAny_length_of_lt {α : Type} (a : JsArr α) (i : Nat) (v : Option α)
    (h : i < a.length) : (jsSetAny a i v).length = a.length := by
  unfold jsSetAny
  rw [if_pos h, List.length_set]

theorem denseSet_length (d : List Nat) (i : Int) (v : Nat) :
    (denseSet d i v).length = d.length := by
  unfold denseSet
  split
  · rw [List.length_set]
  · rfl

/-- Cells are addressed by the decoded index field alone. -/
theorem SparseSet.cellVal_congr (s : SparseSet) (x y : Nat)
    (h1 : s.pageIndexOf x = s.pageIndexOf y) (h2 : s.pageOffsetOf x = s.pageOffsetOf y) :
    s.cellVal x = s.cellVal y := by
  unfold SparseSet.cellVal
  rw [h1, h2]

/-- Effect of a cell write on an arbitrary entity's cell. -/
theorem SparseSet.cellVal_writeCell (s : SparseSet) (e x : Nat) (v : Int) :
    (s.writeCell e v).cellVal x =
      if s.pageIndexOf x = s.pageIndexOf e ∧ s.pageOffsetOf x = s.pageOffsetOf e then
        some v
      else s.cellVal x := by
  unfold SparseSet.cellVal
  rw [SparseSet.cellAt_writeCell]
  rfl

/-- A cell write through an existing page, within its bounds, keeps
the whole sparse structure's shape: same number of page slots, same
pages present, same page lengths. -/
theorem SparseSet.writeCell_sparse_shape (s : SparseSet) (e : Nat) (v : Int)
    (page : JsArr Int) (hpage : jsGet s.sparse (s.pageIndexOf e) = some page)
    (hoff : s.pageOffsetOf e < page.length) :
    (s.writeCell e v).sparse.length = s.sparse.length ∧
    ∀ pi : Nat, (jsGet (s.writeCell e v).sparse pi).isSome = (jsGet s.sparse pi).isSome ∧
      ((jsGet (s.writeCell e v).sparse pi).getD []).length =
        ((jsGet s.sparse pi).getD []).length := by
  have hpi : s.pageIndexOf e < s.sparse.length := lt_of_jsGet_eq_some _ _ _ hpage
  constructor
  · show (jsSet s.sparse (s.pageIndexOf e) _).length = _
    exact jsSetAny_length_of_lt _ _ _ hpi
  · intro pi
    have hget : jsGet (s.writeCell e v).sparse pi =
        if pi = s.pageIndexOf e then
          some (jsSet ((jsGet s.sparse (s.pageIndexOf e)).getD []) (s.pageOffsetOf e) v)
        else jsGet s.sparse pi := by
      show jsGet (jsSet s.sparse (s.pageIndexOf e) _) pi = _
      rw [jsGet_jsSet]
    by_cases hc : pi = s.pageIndexOf e
    · rw [hget, if_pos hc, hc, hpage]
      constructor
      · rfl
      · show (jsSet page (s.pageOffsetOf e) v).length = page.length
        exact jsSetAny_length_of_lt _ _ _ hoff
    · rw [hget, if_neg hc]
      exact ⟨rfl, rfl⟩

/-- Under well-formedness, the entity at live dense position `p` reads
back position `p` through `index`. -/
theorem SparseSet.WF.index_dense {s : SparseSet} (hwf : s.WF) (p : Nat)
    (hp : p < s.length) : s.index (s.dense.getD p 0) = (p : Int) := by
  apply SparseSet.index_eq
  · exact hwf.2.2.1 p hp
  · show (p : Int) ≠ TOMBSTONE
    unfold TOMBSTONE
    omega
  · exact_mod_cast hp

/-- `swap(e1, e2)` of two contained entities at distinct dense
positions on a well-formed set: succeeds, preserves well-formedness,
the length, and the contained set; the two entities' dense positions
and payload-relevant indices are exchanged, every other entity's index
is untouched. -/
theorem SparseSet.swap_spec (s : SparseSet) (hwf : s.WF) (e1 e2 : Nat)
    (hc1 : s.contains e1 = true) (hc2 : s.contains e2 = true)
    (hd : s.index e1 ≠ s.index e2) :
    ∃ s', s.swap e1 e2 = (s', 0) ∧ s'.WF ∧
      s'.length = s.length ∧ s'.pageSize = s.pageSize ∧ s'.hb = s.hb ∧
      s'.dense.length = s.dense.length ∧
      (∀ e, s'.contains e = s.contains e) ∧
      (∀ e, s.contains e = true →
        s'.index e = (if s.index e = s.index e1 then s.index e2
          else if s.index e = s.index e2 then s.index e1 else s.index e)) := by
  obtain ⟨v1, hcv1, hv1t, hv1l⟩ := (contains_iff s e1).mp hc1
  obtain ⟨v2, hcv2, hv2t, hv2l⟩ := (contains_iff s e2).mp hc2
  have hidx1 : s.index e1 = v1 := index_eq s e1 v1 hcv1 hv1t hv1l
  have hidx2 : s.index e2 = v2 := index_eq s e2 v2 hcv2 hv2t hv2l
  have hvne : v1 ≠ v2 := by
    rw [hidx1, hidx2] at hd
    exact hd
  have hcell1 := hwf.cell_spec (s.pageIndexOf e1) (s.pageOffsetOf e1) v1 hcv1
  have hcell2 := hwf.cell_spec (s.pageIndexOf e2) (s.pageOffsetOf e2) v2 hcv2
  have hv1t' : v1 ≠ -1 := hv1t
  have hv2t' : v2 ≠ -1 := hv2t
  have hv1m : (-1 : Int) ≤ v1 := hcell1.1
  have hv2m : (-1 : Int) ≤ v2 := hcell2.1
  have hv1nn : (0 : Int) ≤ v1 := by omega
  have hv2nn : (0 : Int) ≤ v2 := by omega
  have hde1 := hcell1.2 hv1nn hv1l
  have hde2 := hcell2.2 hv2nn hv2l
  have hv1cast : (v1.toNat : Int) = v1 := Int.toNat_of_nonneg hv1nn
  have hv2cast : (v2.toNat : Int) = v2 := Int.toNat_of_nonneg hv2nn
  have hv1n : v1.toNat < s.length := by omega
  have hv2n : v2.toNat < s.length := by omega
  have hnne : v1.toNat ≠ v2.toNat := by omega
  have hdlen : s.length ≤ s.dense.length := hwf.2.1
  have hlen0 : ¬(s.length = 0) := by omega
  have hne : e1 ≠ e2 := by
    intro h
    rw [h] at hidx1
    rw [hidx1] at hidx2
    exact hvne hidx2
  have haddrne : ¬(s.pageIndexOf e1 = s.pageIndexOf e2 ∧
      s.pageOffsetOf e1 = s.pageOffsetOf e2) := by
    rintro ⟨ha, hb⟩
    have hcc : s.cellVal e1 = s.cellVal e2 := cellVal_congr s e1 e2 ha hb
    rw [hcv1, hcv2] at hcc
    injection hcc with hcc
    exact hvne hcc
  obtain ⟨page1, hpage1⟩ := cellVal_some_page s e1 v1 hcv1
  obtain ⟨page2, hpage2⟩ := cellVal_some_page s e2 v2 hcv2
  have hoff1 : s.pageOffsetOf e1 < page1.length := by
    apply lt_of_jsGet_eq_some _ _ v1
    have h := hcv1
    unfold cellVal cellAt at h
    rw [hpage1] at h
    exact h
  have hoff2 : s.pageOffsetOf e2 < page2.length := by
    apply lt_of_jsGet_eq_some _ _ v2
    have h := hcv2
    unfold cellVal cellAt at h
    rw [hpage2] at h
    exact h
  set a1 := s.dense.getD v1.toNat 0 with ha1def
  set a2 := s.dense.getD v2.toNat 0 with ha2def
  set s1 : SparseSet :=
    { s with dense := denseSet (denseSet s.dense v1 a2) v2 a1 } with hs1def
  set s3 : SparseSet := (s1.writeCell e1 v2).writeCell e2 v1 with hs3def
  -- the run itself
  have hrun : s.swap e1 e2 = (s3, 0) := by
    unfold SparseSet.swap
    rw [if_neg (by
      rintro (h | h)
      · exact hlen0 h
      · exact hne h)]
    rw [if_neg (by
      intro h
      apply h
      unfold pageExists
      rw [hpage1]
      rfl)]
    rw [if_neg (by
      intro h
      apply h
      unfold pageExists
      rw [hpage2]
      rfl)]
    rw [hcv1]
    dsimp only
    rw [if_neg hv1t]
    rw [hcv2]
    dsimp only
    rw [if_neg hv2t]
    rw [if_neg (by
      simp only [not_or, not_lt, not_le]
      exact ⟨hv1nn, hv1l, hv2nn, hv2l⟩)]
  -- shape of the sparse structure is preserved
  have hsh1 := SparseSet.writeCell_sparse_shape s1 e1 v2 page1 hpage1 hoff1
  have hpage1' : jsGet (s1.writeCell e1 v2).sparse ((s1.writeCell e1 v2).pageIndexOf e2) =
      some ((jsGet (s1.writeCell e1 v2).sparse (s.pageIndexOf e2)).getD []) := by
    have hsome := (hsh1.2 (s.pageIndexOf e2)).1
    show jsGet (s1.writeCell e1 v2).sparse (s.pageIndexOf e2) = _
    cases hg : jsGet (s1.writeCell e1 v2).sparse (s.pageIndexOf e2) with
    | none =>
      rw [hg] at hsome
      rw [hpage2] at hsome
      cases hsome
    | some pg => rfl
  have hoff2' : (s1.writeCell e1 v2).pageOffsetOf e2 <
      ((jsGet (s1.writeCell e1 v2).sparse (s.pageIndexOf e2)).getD []).length := by
    have hl := (hsh1.2 (s.pageIndexOf e2)).2
    show s.pageOffsetOf e2 < _
    rw [hl, hpage2]
    exact hoff2
  have hsh2 := SparseSet.writeCell_sparse_shape (s1.writeCell e1 v2) e2 v1 _ hpage1' hoff2'
  have hshlen : s3.sparse.length = s.sparse.length := by
    rw [hs3def]
    rw [hsh2.1]
    exact hsh1.1
  have hshsome : ∀ pi : Nat, (jsGet s3.sparse pi).isSome = (jsGet s.sparse pi).isSome := by
    intro pi
    rw [hs3def, (hsh2.2 pi).1]
    exact (hsh1.2 pi).1
  have hshpg : ∀ pi : Nat, ((jsGet s3.sparse pi).getD []).length =
      ((jsGet s.sparse pi).getD []).length := by
    intro pi
    rw [hs3def, (hsh2.2 pi).2]
    exact (hsh1.2 pi).2
  -- cell characterisation of the final state
  have hcell3 : ∀ x : Nat, s3.cellVal x =
      if s.pageIndexOf x = s.pageIndexOf e2 ∧ s.pageOffsetOf x = s.pageOffsetOf e2 then
        some v1
      else if s.pageIndexOf x = s.pageIndexOf e1 ∧ s.pageOffsetOf x = s.pageOffsetOf e1 then
        some v2
      else s.cellVal x := by
    intro x
    rw [hs3def, SparseSet.cellVal_writeCell, SparseSet.cellVal_writeCell]
    rfl
  have hcellAt3 : ∀ pi po : Nat, s3.cellAt pi po =
      if pi = s.pageIndexOf e2 ∧ po = s.pageOffsetOf e2 then some v1
      else if pi = s.pageIndexOf e1 ∧ po = s.pageOffsetOf e1 then some v2
      else s.cellAt pi po := by
    intro pi po
    rw [hs3def, SparseSet.cellAt_writeCell, SparseSet.cellAt_writeCell]
    rfl
  -- dense characterisation of the final state
  have hdg : ∀ k : Nat, s3.dense.getD k 0 =
      if k = v2.toNat then a1 else if k = v1.toNat then a2 else s.dense.getD k 0 := by
    intro k
    show (denseSet (denseSet s.dense v1 a2) v2 a1).getD k 0 = _
    unfold denseSet
    rw [if_pos hv1nn, if_pos hv2nn]
    by_cases h2 : k = v2.toNat
    · subst h2
      rw [getD_set_self _ _ _ _ (by rw [List.length_set]; omega), if_pos rfl]
    · rw [getD_set_ne _ _ _ _ _ h2, if_neg h2]
      by_cases h1 : k = v1.toNat
      · subst h1
        rw [getD_set_self _ _ _ _ (by omega), if_pos rfl]
      · rw [getD_set_ne _ _ _ _ _ h1, if_neg h1]
  have hd3len : s3.dense.length = s.dense.length := by
    show (denseSet (denseSet s.dense v1 a2) v2 a1).length = _
    rw [denseSet_length, denseSet_length]
  -- contained entities keep their membership
  have hcontains : ∀ e, s3.contains e = s.contains e := by
    intro e
    by_cases hA : s.pageIndexOf e = s.pageIndexOf e2 ∧ s.pageOffsetOf e = s.pageOffsetOf e2
    · have hL : s3.contains e = true := by
        apply (contains_iff s3 e).mpr
        refine ⟨v1, ?_, hv1t, ?_⟩
        · rw [hcell3 e, if_pos hA]
        · show v1 < (s.length : Int)
          exact hv1l
      have hR : s.contains e = true := by
        apply (contains_iff s e).mpr
        exact ⟨v2, by rw [cellVal_congr s e e2 hA.1 hA.2]; exact hcv2, hv2t, hv2l⟩
      rw [hL, hR]
    · by_cases hB : s.pageIndexOf e = s.pageIndexOf e1 ∧ s.pageOffsetOf e = s.pageOffsetOf e1
      · have hL : s3.contains e = true := by
          apply (contains_iff s3 e).mpr
          refine ⟨v2, ?_, hv2t, ?_⟩
          · rw [hcell3 e, if_neg hA, if_pos hB]
          · show v2 < (s.length : Int)
            exact hv2l
        have hR : s.contains e = true := by
          apply (contains_iff s e).mpr
          exact ⟨v1, by rw [cellVal_congr s e e1 hB.1 hB.2]; exact hcv1, hv1t, hv1l⟩
        rw [hL, hR]
      · unfold contains
        rw [hcell3 e, if_neg hA, if_neg hB]
        rfl
  -- index characterisation
  have hindexchar : ∀ e, s.contains e = true →
      s3.index e = (if s.index e = s.index e1 then s.index e2
        else if s.index e = s.index e2 then s.index e1 else s.index e) := by
    intro e hce
    obtain ⟨v, hcv, hvt, hvl⟩ := (contains_iff s e).mp hce
    have hidxe : s.index e = v := index_eq s e v hcv hvt hvl
    have hvm : (-1 : Int) ≤ v := (hwf.cell_spec _ _ v hcv).1
    have hvt' : v ≠ -1 := hvt
    have hvnn : (0 : Int) ≤ v := by omega
    have hdee := (hwf.cell_spec _ _ v hcv).2 hvnn hvl
    by_cases hA : s.pageIndexOf e = s.pageIndexOf e2 ∧ s.pageOffsetOf e = s.pageOffsetOf e2
    · have hvv : v = v2 := by
        have hcc : s.cellVal e = s.cellVal e2 := cellVal_congr s e e2 hA.1 hA.2
        rw [hcv, hcv2] at hcc
        injection hcc
      have hL : s3.index e = v1 := by
        apply index_eq
        · rw [hcell3 e, if_pos hA]
        · exact hv1t
        · show v1 < (s.length : Int)
          exact hv1l
      rw [hL, hidxe, hidx1, hidx2, hvv, if_neg (Ne.symm hvne), if_pos rfl]
    · by_cases hB : s.pageIndexOf e = s.pageIndexOf e1 ∧ s.pageOffsetOf e = s.pageOffsetOf e1
      · have hvv : v = v1 := by
          have hcc : s.cellVal e = s.cellVal e1 := cellVal_congr s e e1 hB.1 hB.2
          rw [hcv, hcv1] at hcc
          injection hcc
        have hL : s3.index e = v2 := by
          apply index_eq
          · rw [hcell3 e, if_neg hA, if_pos hB]
          · exact hv2t
          · show v2 < (s.length : Int)
            exact hv2l
        rw [hL, hidxe, hidx1, hidx2, hvv, if_pos rfl]
      · have hne1 : v ≠ v1 := by
          intro h
          subst h
          exact hB ⟨by rw [← hde1.1, ← hdee.1], by rw [← hde1.2, ← hdee.2]⟩
        have hne2 : v ≠ v2 := by
          intro h
          subst h
          exact hA ⟨by rw [← hde2.1, ← hdee.1], by rw [← hde2.2, ← hdee.2]⟩
        have hL : s3.index e = v := by
          apply index_eq
          · rw [hcell3 e, if_neg hA, if_neg hB]
            exact hcv
          · exact hvt
          · show v < (s.length : Int)
            exact hvl
        rw [hL, hidxe, hidx1, hidx2, if_neg hne1, if_neg hne2]
  -- well-formedness of the final state
  have hwf3 : s3.WF := by
    refine ⟨hwf.1, ?_, ?_, ?_⟩
    · show s.length ≤ s3.dense.length
      rw [hd3len]
      exact hdlen
    · intro i hi
      have hi' : i < s.length := hi
      by_cases h2 : i = v2.toNat
      · subst h2
        rw [hdg, if_pos rfl, hcell3 a1, if_neg (by
            rintro ⟨ha, hb⟩
            exact haddrne ⟨by rw [← hde1.1, ha], by rw [← hde1.2, hb]⟩),
          if_pos ⟨hde1.1, hde1.2⟩]
        rw [hv2cast]
      · by_cases h1 : i = v1.toNat
        · subst h1
          rw [hdg, if_neg h2, if_pos rfl, hcell3 a2, if_pos ⟨hde2.1, hde2.2⟩]
          rw [hv1cast]
        · rw [hdg, if_neg h2, if_neg h1]
          have hold := hwf.2.2.1 i hi'
          have hiA : ¬(s.pageIndexOf (s.dense.getD i 0) = s.pageIndexOf e2 ∧
              s.pageOffsetOf (s.dense.getD i 0) = s.pageOffsetOf e2) := by
            rintro ⟨ha, hb⟩
            have hcc : s.cellVal (s.dense.getD i 0) = s.cellVal e2 :=
              cellVal_congr s _ e2 ha hb
            rw [hold, hcv2] at hcc
            injection hcc with hcc
            apply h2
            omega
          have hiB : ¬(s.pageIndexOf (s.dense.getD i 0) = s.pageIndexOf e1 ∧
              s.pageOffsetOf (s.dense.getD i 0) = s.pageOffsetOf e1) := by
            rintro ⟨ha, hb⟩
            have hcc : s.cellVal (s.dense.getD i 0) = s.cellVal e1 :=
              cellVal_congr s _ e1 ha hb
            rw [hold, hcv1] at hcc
            injection hcc with hcc
            apply h1
            omega
          rw [hcell3, if_neg hiA, if_neg hiB]
          exact hold
    · intro pi hpi po hpo
      have hpi' : pi < s.sparse.length := by
        rw [← hshlen]
        exact hpi
      have hpo' : po < ((jsGet s.sparse pi).getD []).length := by
        rw [← hshpg pi]
        exact hpo
      have hok := hwf.2.2.2 pi hpi' po hpo'
      constructor
      · intro w hw
        rw [hcellAt3] at hw
        by_cases hA : pi = s.pageIndexOf e2 ∧ po = s.pageOffsetOf e2
        · rw [if_pos hA] at hw
          injection hw with hw
          omega
        · by_cases hB : pi = s.pageIndexOf e1 ∧ po = s.pageOffsetOf e1
          · rw [if_neg hA, if_pos hB] at hw
            injection hw with hw
            omega
          · rw [if_neg hA, if_neg hB] at hw
            exact hok.1 w hw
      · intro w hw hw0 hwl
        have hwl' : w < (s.length : Int) := hwl
        rw [hcellAt3] at hw
        by_cases hA : pi = s.pageIndexOf e2 ∧ po = s.pageOffsetOf e2
        · rw [if_pos hA] at hw
          injection hw with hw
          subst hw
          rw [hdg, if_neg hnne, if_pos rfl]
          constructor
          · show s.pageIndexOf a2 = pi
            rw [hde2.1, hA.1]
          · show s.pageOffsetOf a2 = po
            rw [hde2.2, hA.2]
        · by_cases hB : pi = s.pageIndexOf e1 ∧ po = s.pageOffsetOf e1
          · rw [if_neg hA, if_pos hB] at hw
            injection hw with hw
            subst hw
            rw [hdg, if_pos rfl]
            constructor
            · show s.pageIndexOf a1 = pi
              rw [hde1.1, hB.1]
            · show s.pageOffsetOf a1 = po
              rw [hde1.2, hB.2]
          · rw [if_neg hA, if_neg hB] at hw
            obtain ⟨hq1, hq2⟩ := hok.2 w hw hw0 hwl'
            have hwne2 : w.toNat ≠ v2.toNat := by
              intro h
              have hww : w = v2 := by omega
              subst hww
              exact hA ⟨by rw [← hq1, hde2.1], by rw [← hq2, hde2.2]⟩
            have hwne1 : w.toNat ≠ v1.toNat := by
              intro h
              have hww : w = v1 := by omega
              subst hww
              exact hB ⟨by rw [← hq1, hde1.1], by rw [← hq2, hde1.2]⟩
            rw [hdg, if_neg hwne2, if_neg hwne1]
            exact ⟨hq1, hq2⟩
  exact ⟨s3, hrun, hwf3, rfl, rfl, rfl, hd3len, hcontains, hindexchar⟩

/-! ### sortBasedComponent: payload projection and pairing invariant -/

/-- The payload-array footprint of `sortBCInner`: the comparison and
both writes read only the array, so the array evolves independently of
the sparse set. -/
def pureInner {α : Type} (cmp : α → α → Int) : JsArr α → Nat → JsArr α
  | c, 0 => c
  | c, j + 1 =>
    if ComponentStore.cmpO cmp (jsGet c (j + 1)) (jsGet c j) < 0 then
      pureInner cmp (jsSetAny (jsSetAny c (j + 1) (jsGet c j)) j (jsGet c (j + 1))) j
    else c

/-- The payload-array footprint of `sortBCOuter`. -/
def pureOuter {α : Type} (cmp : α → α → Int) (length : Nat) :
    JsArr α → Nat → Nat → JsArr α
  | c, _, 0 => c
  | c, i, fuel + 1 =>
    if i < length then pureOuter cmp length (pureInner cmp c i) (i + 1) fuel
    else c

/-- A live dense entry is contained. -/
theorem SparseSet.WF.contains_dense {s : SparseSet} (hwf : s.WF) (p : Nat)
    (hp : p < s.length) : s.contains (s.dense.getD p 0) = true := by
  apply (SparseSet.contains_iff _ _).mpr
  refine ⟨(p : Int), hwf.2.2.1 p hp, ?_, ?_⟩
  · show (p : Int) ≠ TOMBSTONE
    unfold TOMBSTONE
    omega
  · exact_mod_cast hp

/-- A contained entity's `index` is non-negative. -/
theorem SparseSet.index_nonneg (s : SparseSet) (hwf : s.WF) (e : Nat)
    (hc : s.contains e = true) : 0 ≤ s.index e := by
  obtain ⟨v, hcv, hvt, hvl⟩ := (SparseSet.contains_iff s e).mp hc
  rw [SparseSet.index_eq s e v hcv hvt hvl]
  have hvm : (-1 : Int) ≤ v := (hwf.cell_spec _ _ v hcv).1
  have hvt' : v ≠ -1 := hvt
  omega

/-- The pairing invariant preserved by the sort loops: a well-formed
set of unchanged length and membership, each contained entity still
looking up to the payload it had in the initial state `cs₀`, and the
component kind unchanged. -/
def SortInv {α : Type} (cs₀ cs : ComponentStore α) : Prop :=
  cs.set.WF ∧ cs.set.length = cs₀.set.length ∧
  cs.isEmptyComp = cs₀.isEmptyComp ∧
  (∀ e, cs.set.contains e = cs₀.set.contains e) ∧
  (∀ e, cs.set.contains e = true →
    jsGet cs.components (cs.set.index e).toNat =
      jsGet cs₀.components (cs₀.set.index e).toNat)

/-- One inner sift pass keeps the pairing invariant, and its payload
array is exactly the pure footprint. -/
theorem sortBCInner_inv {α : Type} (cmp : α → α → Int) (cs₀ : ComponentStore α)
    (i : Nat) (hi : i < cs₀.set.length) :
    ∀ (j : Nat) (cs : ComponentStore α), j ≤ i → SortInv cs₀ cs →
      SortInv cs₀ (ComponentStore.sortBCInner cmp cs j) ∧
      (ComponentStore.sortBCInner cmp cs j).components = pureInner cmp cs.components j := by
  intro j
  induction j with
  | zero =>
    intro cs _ hinv
    exact ⟨hinv, rfl⟩
  | succ j ih =>
    intro cs hj hinv
    obtain ⟨hwf, hlen, hemp, hcont, hpay⟩ := hinv
    have hj1 : j + 1 < cs.set.length := by omega
    have hjl : j < cs.set.length := by omega
    by_cases hcnd : ComponentStore.cmpO cmp (jsGet cs.components (j + 1))
        (jsGet cs.components j) < 0
    · -- the executed-swap branch
      have hc1 : cs.set.contains (cs.set.dense.getD (j + 1) 0) = true :=
        hwf.contains_dense (j + 1) hj1
      have hc2 : cs.set.contains (cs.set.dense.getD j 0) = true :=
        hwf.contains_dense j hjl
      have hi1 : cs.set.index (cs.set.dense.getD (j + 1) 0) = ((j + 1 : Nat) : Int) :=
        hwf.index_dense (j + 1) hj1
      have hi2 : cs.set.index (cs.set.dense.getD j 0) = ((j : Nat) : Int) :=
        hwf.index_dense j hjl
      have hdne : cs.set.index (cs.set.dense.getD (j + 1) 0) ≠
          cs.set.index (cs.set.dense.getD j 0) := by
        rw [hi1, hi2]
        intro h
        omega
      obtain ⟨s', hrun, hwf', hlen', hps', hhb', hdlen', hcont', hidxchar'⟩ :=
        SparseSet.swap_spec cs.set hwf _ _ hc1 hc2 hdne
      have hstep : ComponentStore.sortBCInner cmp cs (j + 1) =
          ComponentStore.sortBCInner cmp
            { cs with
              components := jsSetAny (jsSetAny cs.components (j + 1)
                (jsGet cs.components j)) j (jsGet cs.components (j + 1)),
              set := s' } j := by
        simp only [ComponentStore.sortBCInner]
        rw [if_pos hcnd, hrun]
      set comps' := jsSetAny (jsSetAny cs.components (j + 1)
        (jsGet cs.components j)) j (jsGet cs.components (j + 1)) with hcomps'
      set cs1 : ComponentStore α :=
        { cs with components := comps', set := s' } with hcs1
      have hinv1 : SortInv cs₀ cs1 := by
        refine ⟨hwf', ?_, hemp, ?_, ?_⟩
        · show s'.length = cs₀.set.length
          rw [hlen', hlen]
        · intro e
          show s'.contains e = _
          rw [hcont' e, hcont e]
        · intro e hce
          have hce0 : cs.set.contains e = true := by
            show cs.set.contains e = true
            rw [← hcont' e]
            exact hce
          have hidx := hidxchar' e hce0
          rw [hi1, hi2] at hidx
          have hnn : 0 ≤ cs.set.index e := cs.set.index_nonneg hwf e hce0
          show jsGet comps' (s'.index e).toNat = _
          by_cases hA : cs.set.index e = ((j + 1 : Nat) : Int)
          · rw [hidx, if_pos hA]
            have : ((j : Nat) : Int).toNat = j := by omega
            rw [this, hcomps', jsGet_jsSetAny_self]
            have h2 : (cs.set.index e).toNat = j + 1 := by omega
            rw [← h2]
            exact hpay e hce0
          · by_cases hB : cs.set.index e = ((j : Nat) : Int)
            · rw [hidx, if_neg hA, if_pos hB]
              have : ((j + 1 : Nat) : Int).toNat = j + 1 := by omega
              rw [this, hcomps', jsGet_jsSetAny_ne _ _ _ _ (by omega),
                jsGet_jsSetAny_self]
              have h2 : (cs.set.index e).toNat = j := by omega
              rw [← h2]
              exact hpay e hce0
            · rw [hidx, if_neg hA, if_neg hB]
              have hn1 : (cs.set.index e).toNat ≠ j := by omega
              have hn2 : (cs.set.index e).toNat ≠ j + 1 := by omega
              rw [hcomps', jsGet_jsSetAny_ne _ _ _ _ hn1, jsGet_jsSetAny_ne _ _ _ _ hn2]
              exact hpay e hce0
      obtain ⟨hinvr, hprojr⟩ := ih cs1 (by omega) hinv1
      constructor
      · rw [hstep]
        exact hinvr
      · rw [hstep, hprojr]
        have hpure : pureInner cmp cs.components (j + 1) = pureInner cmp comps' j := by
          rw [hcomps']
          simp only [pureInner]
          rw [if_pos hcnd]
        rw [hpure]
    · -- the stop branch
      have hstep : ComponentStore.sortBCInner cmp cs (j + 1) = cs := by
        unfold ComponentStore.sortBCInner
        rw [if_neg hcnd]
      have hpure : pureInner cmp cs.components (j + 1) = cs.components := by
        unfold pureInner
        rw [if_neg hcnd]
      rw [hstep, hpure]
      exact ⟨⟨hwf, hlen, hemp, hcont, hpay⟩, rfl⟩

/-- The outer loop keeps the pairing invariant, and its payload array
is the pure footprint. -/
theorem sortBCOuter_inv {α : Type} (cmp : α → α → Int) (cs₀ : ComponentStore α)
    (L : Nat) (hL : L = cs₀.set.length) :
    ∀ (fuel i : Nat) (cs : ComponentStore α), i + fuel ≤ cs₀.set.length →
      SortInv cs₀ cs →
      SortInv cs₀ (ComponentStore.sortBCOuter cmp L cs i fuel) ∧
      (ComponentStore.sortBCOuter cmp L cs i fuel).components =
        pureOuter cmp L cs.components i fuel := by
  intro fuel
  induction fuel with
  | zero =>
    intro i cs _ hinv
    exact ⟨hinv, rfl⟩
  | succ fuel ih =>
    intro i cs hle hinv
    by_cases hi : i < L
    · have hi' : i < cs₀.set.length := by omega
      have hstep : ComponentStore.sortBCOuter cmp L cs i (fuel + 1) =
          ComponentStore.sortBCOuter cmp L (ComponentStore.sortBCInner cmp cs i)
            (i + 1) fuel := by
        simp only [ComponentStore.sortBCOuter]
        rw [if_pos hi]
      obtain ⟨hinv1, hproj1⟩ := sortBCInner_inv cmp cs₀ i hi' i cs le_rfl hinv
      obtain ⟨hinv2, hproj2⟩ := ih (i + 1) _ (by omega) hinv1
      refine ⟨by rw [hstep]; exact hinv2, ?_⟩
      rw [hstep, hproj2, hproj1]
      have hpure : pureOuter cmp L cs.components i (fuel + 1) =
          pureOuter cmp L (pureInner cmp cs.components i) (i + 1) fuel := by
        simp only [pureOuter]
        rw [if_pos hi]
      rw [hpure]
    · have hstep : ComponentStore.sortBCOuter cmp L cs i (fuel + 1) = cs := by
        simp only [ComponentStore.sortBCOuter]
        rw [if_neg hi]
      have hpure : pureOuter cmp L cs.components i (fuel + 1) = cs.components := by
        simp only [pureOuter]
        rw [if_neg hi]
      rw [hstep, hpure]
      exact ⟨hinv, rfl⟩

/-! ### sortBasedComponent: sortedness of the pure footprint -/

/-- Asymmetry of the comparator lifts to payload cells (holes compare
as 0, never negative). -/
theorem cmpO_asym {α : Type} (cmp : α → α → Int)
    (hasym : ∀ a b : α, cmp a b < 0 → ¬cmp b a < 0) :
    ∀ x y : Option α, ComponentStore.cmpO cmp x y < 0 →
      ¬ComponentStore.cmpO cmp y x < 0 := by
  intro x y
  cases x with
  | none =>
    intro h
    simp [ComponentStore.cmpO] at h
  | some a =>
    cases y with
    | none =>
      intro h
      simp [ComponentStore.cmpO] at h
    | some b =>
      intro h
      have := hasym a b h
      simpa [ComponentStore.cmpO] using this

/-- Transitivity of `cmp ≤` lifts to payload cells whenever the middle
cell is occupied. -/
theorem cmpO_trans_mid {α : Type} (cmp : α → α → Int)
    (htrans : ∀ a b c : α, ¬cmp b a < 0 → ¬cmp c b < 0 → ¬cmp c a < 0) :
    ∀ (x y z : Option α), y ≠ none → ¬ComponentStore.cmpO cmp y x < 0 →
      ¬ComponentStore.cmpO cmp z y < 0 → ¬ComponentStore.cmpO cmp z x < 0 := by
  intro x y z hy h1 h2
  cases x with
  | none =>
    cases z <;> simp [ComponentStore.cmpO]
  | some a =>
    cases z with
    | none => simp [ComponentStore.cmpO]
    | some c =>
      cases y with
      | none => exact absurd rfl hy
      | some b =>
        have h1' : ¬cmp b a < 0 := by simpa [ComponentStore.cmpO] using h1
        have h2' : ¬cmp c b < 0 := by simpa [ComponentStore.cmpO] using h2
        simpa [ComponentStore.cmpO] using htrans a b c h1' h2'

/-- Correctness of one inner sift pass on the pure footprint: given the
classical insertion-sort invariants at position `j` (left part sorted,
right part sorted, left below right, moving element below the right
part), the result is sorted on `[0, i]`, stays occupied there, and is
untouched beyond `i`. -/
theorem pureInner_spec {α : Type} (cmp : α → α → Int)
    (hasym : ∀ a b : α, cmp a b < 0 → ¬cmp b a < 0)
    (htrans : ∀ a b c : α, ¬cmp b a < 0 → ¬cmp c b < 0 → ¬cmp c a < 0)
    (i : Nat) :
    ∀ (j : Nat) (c : JsArr α), j ≤ i →
      (∀ k, k ≤ i → jsGet c k ≠ none) →
      (∀ a b : Nat, a < b → b < j →
        ¬ComponentStore.cmpO cmp (jsGet c b) (jsGet c a) < 0) →
      (∀ a b : Nat, j < a → a < b → b ≤ i →
        ¬ComponentStore.cmpO cmp (jsGet c b) (jsGet c a) < 0) →
      (∀ a b : Nat, a < j → j < b → b ≤ i →
        ¬ComponentStore.cmpO cmp (jsGet c b) (jsGet c a) < 0) →
      (∀ b : Nat, j < b → b ≤ i →
        ¬ComponentStore.cmpO cmp (jsGet c b) (jsGet c j) < 0) →
      (∀ a b : Nat, a < b → b ≤ i →
        ¬ComponentStore.cmpO cmp (jsGet (pureInner cmp c j) b)
          (jsGet (pureInner cmp c j) a) < 0) ∧
      (∀ k, k ≤ i → jsGet (pureInner cmp c j) k ≠ none) ∧
      (∀ k, i < k → jsGet (pureInner cmp c j) k = jsGet c k) := by
  intro j
  induction j with
  | zero =>
    intro c _ hocc S1 S2 S3 S4
    have h0 : pureInner cmp c 0 = c := by
      simp only [pureInner]
    rw [h0]
    refine ⟨?_, hocc, fun k _ => rfl⟩
    intro a b hab hbi
    by_cases ha : a = 0
    · subst ha
      exact S4 b hab hbi
    · exact S2 a b (by omega) hab hbi
  | succ j ih =>
    intro c hj hocc S1 S2 S3 S4
    by_cases hcnd : ComponentStore.cmpO cmp (jsGet c (j + 1)) (jsGet c j) < 0
    · -- swap and recurse
      set c' := jsSetAny (jsSetAny c (j + 1) (jsGet c j)) j (jsGet c (j + 1)) with hc'
      have hred : pureInner cmp c (j + 1) = pureInner cmp c' j := by
        rw [hc']
        simp only [pureInner]
        rw [if_pos hcnd]
      have hg : ∀ k, jsGet c' k =
          if k = j then jsGet c (j + 1) else if k = j + 1 then jsGet c j
          else jsGet c k := by
        intro k
        rw [hc', jsGet_jsSetAny, jsGet_jsSetAny]
      obtain ⟨T1, T2, T3⟩ := ih c' (by omega)
        (by
          intro k hk
          rw [hg k]
          by_cases h1 : k = j
          · rw [if_pos h1]
            exact hocc (j + 1) (by omega)
          · rw [if_neg h1]
            by_cases h2 : k = j + 1
            · rw [if_pos h2]
              exact hocc j (by omega)
            · rw [if_neg h2]
              exact hocc k hk)
        (by
          intro a b hab hbj
          have hga : jsGet c' a = jsGet c a := by
            rw [hg a, if_neg (by omega), if_neg (by omega)]
          have hgb : jsGet c' b = jsGet c b := by
            rw [hg b, if_neg (by omega), if_neg (by omega)]
          rw [hga, hgb]
          exact S1 a b hab (by omega))
        (by
          intro a b hja hab hbi
          have hgb : jsGet c' b = jsGet c b := by
            rw [hg b, if_neg (by omega), if_neg (by omega)]
          by_cases ha1 : a = j + 1
          · have hga : jsGet c' a = jsGet c j := by
              rw [hg a, if_neg (by omega), if_pos ha1]
            rw [hga, hgb]
            exact S3 j b (by omega) (by omega) hbi
          · have hga : jsGet c' a = jsGet c a := by
              rw [hg a, if_neg (by omega), if_neg ha1]
            rw [hga, hgb]
            exact S2 a b (by omega) hab hbi)
        (by
          intro a b haj hjb hbi
          have hga : jsGet c' a = jsGet c a := by
            rw [hg a, if_neg (by omega), if_neg (by omega)]
          by_cases hb1 : b = j + 1
          · have hgb : jsGet c' b = jsGet c j := by
              rw [hg b, if_neg (by omega), if_pos hb1]
            rw [hga, hgb]
            exact S1 a j haj (by omega)
          · have hgb : jsGet c' b = jsGet c b := by
              rw [hg b, if_neg (by omega), if_neg hb1]
            rw [hga, hgb]
            exact S3 a b (by omega) (by omega) hbi)
        (by
          intro b hjb hbi
          have hgj : jsGet c' j = jsGet c (j + 1) := by
            rw [hg j, if_pos rfl]
          by_cases hb1 : b = j + 1
          · have hgb : jsGet c' b = jsGet c j := by
              rw [hg b, if_neg (by omega), if_pos hb1]
            rw [hgj, hgb]
            exact cmpO_asym cmp hasym _ _ hcnd
          · have hgb : jsGet c' b = jsGet c b := by
              rw [hg b, if_neg (by omega), if_neg hb1]
            rw [hgj, hgb]
            exact S4 b (by omega) hbi)
      refine ⟨by rw [hred]; exact T1, by rw [hred]; exact T2, ?_⟩
      intro k hk
      rw [hred, T3 k hk, hg k, if_neg (by omega), if_neg (by omega)]
    · -- stop: already sorted on [0, i]
      have hred : pureInner cmp c (j + 1) = c := by
        simp only [pureInner]
        rw [if_neg hcnd]
      rw [hred]
      refine ⟨?_, hocc, fun k _ => rfl⟩
      intro a b hab hbi
      by_cases hb1 : b < j + 1
      · exact S1 a b hab hb1
      · by_cases hb2 : b = j + 1
        · subst hb2
          by_cases ha : a = j
          · subst ha
            exact hcnd
          · exact cmpO_trans_mid cmp htrans _ _ _ (hocc j (by omega))
              (S1 a j (by omega) (by omega)) hcnd
        · by_cases ha : a = j + 1
          · subst ha
            exact S4 b (by omega) hbi
          · by_cases ha2 : a < j + 1
            · exact S3 a b (by omega) (by omega) hbi
            · exact S2 a b (by omega) hab hbi

/-- Correctness of the pure outer loop: starting with a sorted prefix
`[0, i)` and an occupied window `[0, n)`, the final array is sorted on
`[0, n)`. -/
theorem pureOuter_spec {α : Type} (cmp : α → α → Int)
    (hasym : ∀ a b : α, cmp a b < 0 → ¬cmp b a < 0)
    (htrans : ∀ a b c : α, ¬cmp b a < 0 → ¬cmp c b < 0 → ¬cmp c a < 0)
    (n : Nat) :
    ∀ (fuel i : Nat) (c : JsArr α), i + fuel = n →
      (∀ k, k < n → jsGet c k ≠ none) →
      (∀ a b : Nat, a < b → b < i →
        ¬ComponentStore.cmpO cmp (jsGet c b) (jsGet c a) < 0) →
      ∀ a b : Nat, a < b → b < n →
        ¬ComponentStore.cmpO cmp (jsGet (pureOuter cmp n c i fuel) b)
          (jsGet (pureOuter cmp n c i fuel) a) < 0 := by
  intro fuel
  induction fuel with
  | zero =>
    intro i c hin hocc hsort a b hab hbn
    simp only [pureOuter]
    exact hsort a b hab (by omega)
  | succ fuel ih =>
    intro i c hin hocc hsort a b hab hbn
    have hi : i < n := by omega
    have hred : pureOuter cmp n c i (fuel + 1) =
        pureOuter cmp n (pureInner cmp c i) (i + 1) fuel := by
      simp only [pureOuter]
      rw [if_pos hi]
    rw [hred]
    obtain ⟨T1, T2, T3⟩ := pureInner_spec cmp hasym htrans i i c le_rfl
      (fun k hk => hocc k (by omega))
      (fun a b hab hb => hsort a b hab hb)
      (fun a b ha hab hb => ((by omega : False)).elim)
      (fun a b ha hb hbi => ((by omega : False)).elim)
      (fun b hb hbi => ((by omega : False)).elim)
    apply ih (i + 1) (pureInner cmp c i) (by omega)
    · intro k hk
      by_cases hki : k ≤ i
      · exact T2 k hki
      · rw [T3 k (by omega)]
        exact hocc k hk
    · intro a b hab hb
      exact T1 a b hab (by omega)
    · exact hab
    · exact hbn

/-- C6: on a standard-kind store with a well-formed set,
`sortBasedComponent(cmp)` with more than one element returns success
and yields a state with a well-formed set in which membership and
every entity's payload lookup are exactly as before the call (the
entity/payload pairing is intact), the sparse cell of `dense[i]` is
`i` for every live `i`, and — when `cmp` behaves as a strict-order
comparator (asymmetric, with transitive non-strict complement) and all
live payload cells are occupied — the payload array is sorted by `cmp`
on the live window; with length ≤ 1 it returns failure (-1) and
changes nothing. -/
theorem c6_sort_pairing_and_order {α : Type} (cmp : α → α → Int) (cs : ComponentStore α)
    (hstd : cs.isEmptyComp = false) (hwf : cs.set.WF) :
    (cs.len ≤ 1 → cs.sortBasedComponent cmp = Except.ok (cs, -1)) ∧
    (1 < cs.len →
      ∃ cs', cs.sortBasedComponent cmp = Except.ok (cs', 0) ∧
        cs'.set.WF ∧ cs'.len = cs.len ∧ cs'.isEmptyComp = false ∧
        (∀ e, cs'.contains e = cs.contains e) ∧
        (∀ e, cs'.tryGet e = cs.tryGet e) ∧
        (∀ i : Nat, i < cs.len → cs'.set.index (cs'.set.dense.getD i 0) = (i : Int)) ∧
        ((∀ a b : α, cmp a b < 0 → ¬cmp b a < 0) →
          (∀ a b c : α, ¬cmp b a < 0 → ¬cmp c b < 0 → ¬cmp c a < 0) →
          (∀ k, k < cs.len → jsGet cs.components k ≠ none) →
          ∀ a b : Nat, a < b → b < cs.len →
            ¬ComponentStore.cmpO cmp (jsGet cs'.components b)
              (jsGet cs'.components a) < 0)) := by
  have hstd' : ¬(cs.isEmptyComp = true) := by
    rw [hstd]
    exact Bool.false_ne_true
  constructor
  · intro hle
    unfold ComponentStore.sortBasedComponent
    rw [if_neg hstd', if_pos hle]
  · intro hgt
    have hlen : cs.len = cs.set.length := rfl
    have hnle : ¬(cs.len ≤ 1) := by omega
    have hinv0 : SortInv cs cs := ⟨hwf, rfl, rfl, fun _ => rfl, fun _ _ => rfl⟩
    obtain ⟨hinv, hproj⟩ :=
      sortBCOuter_inv cmp cs cs.len hlen (cs.len - 1) 1 cs (by omega) hinv0
    obtain ⟨hwf', hlen', hemp', hcont', hpay'⟩ := hinv
    refine ⟨ComponentStore.sortBCOuter cmp cs.len cs 1 (cs.len - 1), ?_, hwf', ?_, ?_,
      ?_, ?_, ?_, ?_⟩
    · unfold ComponentStore.sortBasedComponent
      rw [if_neg hstd', if_neg hnle]
    · exact hlen'
    · rw [hemp']
      exact hstd
    · exact hcont'
    · intro e
      have hemp'' : ¬((ComponentStore.sortBCOuter cmp cs.len cs 1
          (cs.len - 1)).isEmptyComp = true) := by
        rw [hemp']
        exact hstd'
      unfold ComponentStore.tryGet
      rw [if_neg hemp'', if_neg hstd']
      by_cases hce : cs.set.contains e = true
      · have hce' : (ComponentStore.sortBCOuter cmp cs.len cs 1
            (cs.len - 1)).set.contains e = true := by
          rw [hcont' e]
          exact hce
        have hnn := cs.set.index_nonneg hwf e hce
        have hnn' := (ComponentStore.sortBCOuter cmp cs.len cs 1
          (cs.len - 1)).set.index_nonneg hwf' e hce'
        rw [if_neg (by omega), if_neg (by omega)]
        rw [hpay' e hce']
      · have hce0 : cs.set.contains e = false := by
          cases h : cs.set.contains e
          · rfl
          · exact absurd h hce
        have hce0' : (ComponentStore.sortBCOuter cmp cs.len cs 1
            (cs.len - 1)).set.contains e = false := by
          rw [hcont' e]
          exact hce0
        rw [SparseSet.index_of_not_contains _ _ hce0',
          SparseSet.index_of_not_contains _ _ hce0]
        rw [if_pos rfl, if_pos rfl]
    · intro i hi
      apply hwf'.index_dense
      rw [hlen']
      exact hi
    · intro hasym htrans hocc a b hab hbn
      rw [hproj]
      exact pureOuter_spec cmp hasym htrans cs.len (cs.len - 1) 1 cs.components
        (by omega) hocc (fun a b hab hb => (by omega : False).elim) a b hab hbn

/-- The subtraction comparator on `Nat` payloads. -/
def c6cmp : Nat → Nat → Int := fun a b => (a : Int) - (b : Int)

/-- A standard store holding `entA`, `entB`, `entC` with payloads
3, 1, 2 in that dense order. -/
def c6Store : ComponentStore Nat :=
  (((ComponentStore.mk0 Nat false handleMedium 128 4).addU entA 3).addU entB 1).addU
    entC 2

/-- S5 instance of C6: sorting the payloads 3, 1, 2 ascending yields
payloads `[1, 2, 3]` with dense order `[entB, entC, entA]` and each
entity still looking up its own payload. -/
theorem c6_sort_pairing_and_order_witness :
    (c6Store.isEmptyComp = false ∧ c6Store.set.WF ∧ 1 < c6Store.len) ∧
    ((c6Store.len ≤ 1 → c6Store.sortBasedComponent c6cmp = Except.ok (c6Store, -1)) ∧
      (1 < c6Store.len →
        ∃ cs', c6Store.sortBasedComponent c6cmp = Except.ok (cs', 0) ∧
          cs'.set.WF ∧ cs'.len = c6Store.len ∧ cs'.isEmptyComp = false ∧
          (∀ e, cs'.contains e = c6Store.contains e) ∧
          (∀ e, cs'.tryGet e = c6Store.tryGet e) ∧
          (∀ i : Nat, i < c6Store.len →
            cs'.set.index (cs'.set.dense.getD i 0) = (i : Int)) ∧
          ((∀ a b : Nat, c6cmp a b < 0 → ¬c6cmp b a < 0) →
            (∀ a b c : Nat, ¬c6cmp b a < 0 → ¬c6cmp c b < 0 → ¬c6cmp c a < 0) →
            (∀ k, k < c6Store.len → jsGet c6Store.components k ≠ none) →
            ∀ a b : Nat, a < b → b < c6Store.len →
              ¬ComponentStore.cmpO c6cmp (jsGet cs'.components b)
                (jsGet cs'.components a) < 0))) ∧
    (c6Store.sortBasedComponent c6cmp).toOption.map
        (fun p => (p.1.components.take 3, p.1.set.dense.take 3, p.2)) =
      some ([some 1, some 2, some 3], [entB, entC, entA], 0) ∧
    (c6Store.sortBasedComponent c6cmp).toOption.map
        (fun p => (p.1.tryGet entA).toOption) = some (some (some 3)) ∧
    (c6Store.sortBasedComponent c6cmp).toOption.map
        (fun p => (p.1.tryGet entB).toOption) = some (some (some 1)) ∧
    (c6Store.sortBasedComponent c6cmp).toOption.map
        (fun p => (p.1.tryGet entC).toOption) = some (some (some 2)) :=
  ⟨⟨rfl, by decide, by decide⟩,
   c6_sort_pairing_and_order c6cmp c6Store rfl (by decide),
   by decide, by decide, by decide, by decide⟩

end Aalam
